import Mathlib

/-! genson: the polymorphic JSON slot `Any[T]`

A shallow embedding of `genson.go`.  The type `Any[T]` holds a `FieldName` and a
`Payload` of a struct type `T`; `MarshalJSON` emits one field of the payload and
`UnmarshalJSON` decodes the input into the first field that accepts it.

The two methods are written against `reflect` and `encoding/json`.  Those
libraries are not part of the repository, so they enter the embedding as data:

* the type `T` is described by its `reflect.Kind` and by the list returned by
  `reflect.VisibleFields`, in declared order;
* every field carries its accessor (`val.FieldByIndex(field.Index)`) and the
  effect of `json.Unmarshal` through the address of that field;
* `reflect.Value.IsZero` and `json.Marshal` are functions on field values.

`MarshalJSON` and `UnmarshalJSON` below give what the methods return when the
library calls return.  `MarshalJSON.exec` is the finer view of the first method: it
carries the receiver as state through the statements of the body and it has the one
panic the body can reach in `reflect`, that of `Interface()` on an unexported field.
-/

set_option autoImplicit false

namespace Genson

/-! ## Data model -/

/-- Go `[]byte`.  The nil slice and the empty slice are both `[]`. -/
abbrev Bytes := List UInt8

/-- The enumeration `reflect.Kind`. -/
inductive Kind
  | Invalid | Bool | Int | Int8 | Int16 | Int32 | Int64
  | Uint | Uint8 | Uint16 | Uint32 | Uint64 | Uintptr
  | Float32 | Float64 | Complex64 | Complex128
  | Array | Chan | Func | Interface | Map | Pointer | Slice | String | Struct
  | UnsafePointer
  deriving DecidableEq, Repr

/-- The two value-level library calls of `MarshalJSON`: `reflect.Value.IsZero` and
`json.Marshal`, on field values of type `V` with library errors of type `E`. -/
structure Codec (V E : Type) where
  /-- The method `fval.IsZero()`. -/
  IsZero : V → Bool
  /-- The call `json.Marshal(fval.Interface())`: the bytes, or the library error. -/
  Marshal : V → Except E Bytes

/-- One entry of `reflect.VisibleFields(val.Type())` together with what the code does
through it on a payload of type `P`. -/
structure StructField (P V E : Type) where
  /-- The field name `field.Name`. -/
  Name : String
  /-- The field value `val.FieldByIndex(field.Index)`. -/
  FieldByIndex : P → V
  /-- The call `json.Unmarshal(data, fval.Addr().Interface())`: the payload after the
  call (the library writes through the pointer, also when it fails) and the error
  (`none` is the nil error). -/
  Unmarshal : Bytes → P → P × Option E

/-- The reflected type `T` of the payload: `val.Kind()` and
`reflect.VisibleFields(val.Type())` in declared order. -/
structure RType (P V E : Type) where
  /-- The kind of `T`. -/
  Kind : Kind
  /-- The visible fields of `T`, in declared order (only read when `T` is a struct). -/
  VisibleFields : List (StructField P V E)

/-- The slot `Any[T]` of the source. -/
structure Any (P : Type) where
  /-- Name of the selected field; the empty string means no selection. -/
  FieldName : String
  /-- The record holding the candidate members. -/
  Payload : P
  deriving DecidableEq, Repr

/-- The error `fmt.Errorf("error encoding into %s: %w", field.Name, err)`. -/
structure FieldError (E : Type) where
  /-- The field name formatted into the message. -/
  Name : String
  /-- The wrapped library error. -/
  Err : E
  deriving DecidableEq, Repr

/-- The non-nil errors the two methods can return. -/
inductive Error (E : Type)
  /-- An error made by `errors.New(text)`. -/
  | New (text : String)
  /-- An error made by `errors.Join` from a list of non-nil errors. -/
  | Join (errs : List (FieldError E))
  deriving DecidableEq, Repr

/-- The function `errors.Join(errs...)` on non-nil errors: nil when there is none. -/
def errorsJoin {E : Type} (errs : List (FieldError E)) : Option (Error E) :=
  if errs.isEmpty then none else some (Error.Join errs)

/-- The literal `[]byte("null")`. -/
def nullLiteral : Bytes := [0x6e, 0x75, 0x6c, 0x6c]

/-! ## MarshalJSON -/

/-- The loop of `MarshalJSON` taken when `a.FieldName != ""` (lines 30-43): `some p` when
the loop returns `p, nil`, `none` when it runs to its end. -/
def marshalNamed {P V E : Type} (c : Codec V E) (name : String) (payload : P) :
    List (StructField P V E) → Option Bytes
  | [] => none
  | field :: rest =>
    if field.Name ≠ name then
      marshalNamed c name payload rest
    else
      match c.Marshal (field.FieldByIndex payload) with
      | .error _ => marshalNamed c name payload rest
      | .ok p => some p

/-- The loop of `MarshalJSON` taken when `a.FieldName == ""` (lines 45-58): `some p` when
the loop returns `p, nil`, `none` when it runs to its end. -/
def marshalSniff {P V E : Type} (c : Codec V E) (payload : P) :
    List (StructField P V E) → Option Bytes
  | [] => none
  | field :: rest =>
    if c.IsZero (field.FieldByIndex payload) then
      marshalSniff c payload rest
    else
      match c.Marshal (field.FieldByIndex payload) with
      | .error _ => marshalSniff c payload rest
      | .ok p => some p

/-- The method `(a *Any[T]) MarshalJSON() ([]byte, error)`. -/
def MarshalJSON {P V E : Type} (c : Codec V E) (T : RType P V E) (a : Any P) :
    Bytes × Option (Error E) :=
  if T.Kind ≠ Kind.Struct then
    ([], some (Error.New "must be a struct"))
  else
    let fields := T.VisibleFields
    let found :=
      if a.FieldName ≠ "" then marshalNamed c a.FieldName a.Payload fields
      else marshalSniff c a.Payload fields
    match found with
    | some p => (p, none)
    | none => (nullLiteral, none)

/-! ## UnmarshalJSON -/

/-- The loop of `UnmarshalJSON` (lines 73-84) from the remaining fields, the errors
collected so far and the current slot: the slot after the call and the returned error. -/
def unmarshalLoop {P V E : Type} (data : Bytes) :
    List (StructField P V E) → List (FieldError E) → Any P → Any P × Option (Error E)
  | [], errs, a => (a, errorsJoin errs)
  | field :: rest, errs, a =>
    match field.Unmarshal data a.Payload with
    | (payload, none) => (Any.mk field.Name payload, none)
    | (payload, some err) =>
      unmarshalLoop data rest (errs ++ [FieldError.mk field.Name err]) (Any.mk a.FieldName payload)

/-- The method `(a *Any[T]) UnmarshalJSON(data []byte) error`: the slot after the call
and the returned error. -/
def UnmarshalJSON {P V E : Type} (T : RType P V E) (data : Bytes) (a : Any P) :
    Any P × Option (Error E) :=
  if T.Kind ≠ Kind.Struct then
    (a, some (Error.New "must be a struct"))
  else
    unmarshalLoop data T.VisibleFields [] a

/-! ## The records of the test suite

`genson_test.go` instantiates `Any` over `struct { Int int; Str string }`, over
`struct { F func() }` and over `int`.  The definitions below describe these types, and
the empty struct, over a stand-in for `encoding/json` on the three field types.  The
stand-in is exact on the shapes the tests use: `null`, decimal integers, and string
literals of printable ASCII that need no escape.  The theorems of this file are stated
for an arbitrary codec and do not depend on it. -/

/-- Values of the field types of the test records: `int`, `string` and `func()`
(of a func value only whether it is nil is observable). -/
inductive GoValue
  | int (n : Int)
  | string (s : Bytes)
  | func (isNil : Bool)
  deriving DecidableEq, Repr

/-- Errors of `encoding/json`: `*json.UnsupportedTypeError` from `Marshal`, and a syntax or
type error from `Unmarshal`. -/
inductive JSONError
  | UnsupportedType
  | Decode
  deriving DecidableEq, Repr

/-- The ASCII bytes of a string literal. -/
def ascii (s : String) : Bytes := s.toList.map (fun ch => UInt8.ofNat ch.toNat)

/-- JSON insignificant whitespace: space, tab, line feed, carriage return. -/
def isSpace (b : UInt8) : Bool := b == 0x20 || b == 0x09 || b == 0x0a || b == 0x0d

/-- The input without leading and trailing whitespace. -/
def trim (data : Bytes) : Bytes :=
  ((data.dropWhile isSpace).reverse.dropWhile isSpace).reverse

/-- An ASCII decimal digit. -/
def isDigit (b : UInt8) : Bool := 0x30 ≤ b && b ≤ 0x39

/-- The value of a JSON integer part: a single `0`, or digits not starting with `0`. -/
def natLit (ds : Bytes) : Option Nat :=
  if ds.isEmpty || !ds.all isDigit then none
  else if ds.head? == some 0x30 && ds.length ≠ 1 then none
  else some (ds.foldl (fun n d => 10 * n + (d.toNat - 48)) 0)

/-- The value of a JSON number without fraction and exponent. -/
def intLit (data : Bytes) : Option Int :=
  match data with
  | [] => none
  | b :: ds =>
    if b == 0x2d then (natLit ds).map (fun n => -(n : Int))
    else (natLit (b :: ds)).map (fun n => (n : Int))

/-- The range of Go `int` on a 64-bit platform. -/
def inInt64 (n : Int) : Bool := decide (-(2 : Int) ^ 63 ≤ n) && decide (n < (2 : Int) ^ 63)

/-- A printable ASCII byte that a JSON string literal holds unescaped. -/
def isPlain (b : UInt8) : Bool := 0x20 ≤ b && b ≤ 0x7e && b != 0x22 && b != 0x5c

/-- The contents of a JSON string literal without escapes. -/
def strLit (data : Bytes) : Option Bytes :=
  match data with
  | [] => none
  | b :: rest =>
    if b == 0x22 && rest.getLast? == some 0x22 && rest.dropLast.all isPlain
    then some rest.dropLast else none

/-- The decimal digits of a natural number. -/
def digitsOf (n : Nat) : Bytes := (Nat.toDigits 10 n).map (fun ch => UInt8.ofNat ch.toNat)

/-- The output of `json.Marshal` on an `int`. -/
def itoa (n : Int) : Bytes := if n < 0 then 0x2d :: digitsOf n.natAbs else digitsOf n.natAbs

/-- The output of `json.Marshal` on a string that needs no escape. -/
def quote (s : Bytes) : Bytes := 0x22 :: s ++ [0x22]

/-- The stand-in for `reflect.Value.IsZero` and `json.Marshal` on the test values:
a func value has no JSON encoding. -/
def testCodec : Codec GoValue JSONError where
  IsZero v :=
    match v with
    | .int n => n == 0
    | .string s => s.isEmpty
    | .func isNil => isNil
  Marshal v :=
    match v with
    | .int n => .ok (itoa n)
    | .string s => .ok (quote s)
    | .func _ => .error JSONError.UnsupportedType

/-- Modelled from the spec: the decoder `json.Unmarshal` of `encoding/json` for an `int`
member, which is not part of the repository.  A decimal integer is stored (scenario 4,
here within the range of `int`), and a number with a fraction, like every other shape, is
an error and stores nothing ("must fail, not truncate").  The literal `null` leaves the
value as it is, as the library documents. -/
def unmarshalInt (data : Bytes) (old : Int) : Int × Option JSONError :=
  if trim data = ascii "null" then (old, none)
  else match intLit (trim data) with
    | some n => if inInt64 n then (n, none) else (old, some JSONError.Decode)
    | none => (old, some JSONError.Decode)

/-- Modelled from the spec: the decoder `json.Unmarshal` of `encoding/json` for a `string`
member, which is not part of the repository.  A string literal is stored (scenario 5),
and every other shape, a number among them, is an error and stores nothing.  The literal
`null` leaves the value as it is, as the library documents. -/
def unmarshalString (data : Bytes) (old : Bytes) : Bytes × Option JSONError :=
  if trim data = ascii "null" then (old, none)
  else match strLit (trim data) with
    | some s => (s, none)
    | none => (old, some JSONError.Decode)

/-- The stand-in for `json.Unmarshal` into a `func()`: only `null` is accepted. -/
def unmarshalFunc (data : Bytes) (old : Bool) : Bool × Option JSONError :=
  if trim data = ascii "null" then (old, none) else (old, some JSONError.Decode)

/-- The payload `struct { Int int; Str string }` of `testStruct`. -/
structure IntStr where
  Int : Int
  Str : Bytes
  deriving DecidableEq, Repr

/-- The field `Int int`. -/
def fieldInt : StructField IntStr GoValue JSONError where
  Name := "Int"
  FieldByIndex p := GoValue.int p.Int
  Unmarshal data p := (IntStr.mk (unmarshalInt data p.Int).1 p.Str, (unmarshalInt data p.Int).2)

/-- The field `Str string`. -/
def fieldStr : StructField IntStr GoValue JSONError where
  Name := "Str"
  FieldByIndex p := GoValue.string p.Str
  Unmarshal data p :=
    (IntStr.mk p.Int (unmarshalString data p.Str).1, (unmarshalString data p.Str).2)

/-- The type `struct { Int int; Str string }`. -/
def intStrType : RType IntStr GoValue JSONError where
  Kind := Kind.Struct
  VisibleFields := [fieldInt, fieldStr]

/-- The field `F func()` of `invalidField`; the payload is whether `F` is nil. -/
def fieldF : StructField Bool GoValue JSONError where
  Name := "F"
  FieldByIndex p := GoValue.func p
  Unmarshal data p := unmarshalFunc data p

/-- The type `struct { F func() }`. -/
def invalidFieldType : RType Bool GoValue JSONError where
  Kind := Kind.Struct
  VisibleFields := [fieldF]

/-- The type `int` of `nonStruct`; `reflect.VisibleFields` is never called on it. -/
def nonStructType : RType Int GoValue JSONError where
  Kind := Kind.Int
  VisibleFields := []

/-- The type `struct {}`. -/
def emptyStructType : RType Unit GoValue JSONError where
  Kind := Kind.Struct
  VisibleFields := []

/-- A record with a member that has no JSON encoding declared before one that has:
`struct { F func(); N int }`.  The payload is whether `F` is nil, and `N`. -/
structure FuncInt where
  F : Bool
  N : Int
  deriving DecidableEq, Repr

/-- The field `F func()` of `struct { F func(); N int }`. -/
def fieldFuncF : StructField FuncInt GoValue JSONError where
  Name := "F"
  FieldByIndex p := GoValue.func p.F
  Unmarshal data p := (FuncInt.mk (unmarshalFunc data p.F).1 p.N, (unmarshalFunc data p.F).2)

/-- The field `N int` of `struct { F func(); N int }`. -/
def fieldFuncN : StructField FuncInt GoValue JSONError where
  Name := "N"
  FieldByIndex p := GoValue.int p.N
  Unmarshal data p := (FuncInt.mk p.F (unmarshalInt data p.N).1, (unmarshalInt data p.N).2)

/-- The type `struct { F func(); N int }`. -/
def funcIntType : RType FuncInt GoValue JSONError where
  Kind := Kind.Struct
  VisibleFields := [fieldFuncF, fieldFuncN]

/-- A record with an embedded struct: `struct { Inner; X int }` with
`type Inner struct { Y int }`.  The payload holds `Inner.Y` and `X`. -/
structure Embedded where
  Y : Int
  X : Int
  deriving DecidableEq, Repr

/-- Values of the visible fields of `struct { Inner; X int }`: the struct `Inner` with its
field `Y`, or an `int`. -/
inductive EmbValue
  | inner (y : Int)
  | int (n : Int)
  deriving DecidableEq, Repr

/-- The stand-in for `json.Unmarshal` into `Inner`, exact on `null`, which leaves the value
as it is, and on the object with the single key `Y` and an integer value written without
spaces, which stores the integer in `Y`; other input is reported as an error. -/
def unmarshalInner (data : Bytes) (old : Int) : Int × Option JSONError :=
  if trim data = ascii "null" then (old, none)
  else if (trim data).take 5 = ascii "\x7b\"Y\":" && (trim data).getLast? == some 0x7d then
    unmarshalInt ((trim data).drop 5).dropLast old
  else (old, some JSONError.Decode)

/-- The embedded field `Inner`, first in `reflect.VisibleFields`. -/
def fieldInner : StructField Embedded EmbValue JSONError where
  Name := "Inner"
  FieldByIndex p := EmbValue.inner p.Y
  Unmarshal data p := (Embedded.mk (unmarshalInner data p.Y).1 p.X, (unmarshalInner data p.Y).2)

/-- The promoted field `Y` of `Inner`, which `reflect.VisibleFields` lists right after the
embedded field; it is stored inside `Inner`. -/
def fieldY : StructField Embedded EmbValue JSONError where
  Name := "Y"
  FieldByIndex p := EmbValue.int p.Y
  Unmarshal data p := (Embedded.mk (unmarshalInt data p.Y).1 p.X, (unmarshalInt data p.Y).2)

/-- The field `X int` of `struct { Inner; X int }`. -/
def fieldX : StructField Embedded EmbValue JSONError where
  Name := "X"
  FieldByIndex p := EmbValue.int p.X
  Unmarshal data p := (Embedded.mk p.Y (unmarshalInt data p.X).1, (unmarshalInt data p.X).2)

/-- The type `struct { Inner; X int }`: the visible fields are `Inner`, `Y`, `X`. -/
def embeddedType : RType Embedded EmbValue JSONError where
  Kind := Kind.Struct
  VisibleFields := [fieldInner, fieldY, fieldX]

/-- The input `{"Y":5}`. -/
def objectY5 : Bytes := [0x7b, 0x22, 0x59, 0x22, 0x3a, 0x35, 0x7d]

/-- The field `x int` of `struct { x int }`; the payload is the value of `x`. -/
def fieldLowerX : StructField Int GoValue JSONError where
  Name := "x"
  FieldByIndex p := GoValue.int p
  Unmarshal data p := unmarshalInt data p

/-- The type `struct { x int }`, whose only field is not exported. -/
def unexportedType : RType Int GoValue JSONError where
  Kind := Kind.Struct
  VisibleFields := [fieldLowerX]

/-- An exponent part of a JSON number, or nothing: `e` or `E`, an optional sign, and at
least one digit. -/
def isOptExponent (e : Bytes) : Bool :=
  match e with
  | [] => true
  | b :: rest =>
    (b == 0x65 || b == 0x45) &&
      (match rest with
        | [] => false
        | s :: ds =>
          if s == 0x2b || s == 0x2d then !ds.isEmpty && ds.all isDigit
          else (s :: ds).all isDigit)

/-- A JSON number with a fractional part: an integer part, a dot, at least one digit, and
possibly an exponent. -/
def FractionalNumber (data : Bytes) : Prop :=
  ∃ whole frac exp : Bytes, data = whole ++ 0x2e :: (frac ++ exp) ∧
    (intLit whole).isSome = true ∧ frac ≠ [] ∧ frac.all isDigit = true ∧
    isOptExponent exp = true

/-! ## Auxiliary notions for the statements -/

/-- The payload after `json.Unmarshal` ran on `data` through each of the given fields in
turn, as the loop of `UnmarshalJSON` threads it through failed attempts. -/
def attempts {P V E : Type} (data : Bytes) : List (StructField P V E) → P → P
  | [], payload => payload
  | field :: rest, payload => attempts data rest (field.Unmarshal data payload).1

/-- The names of the visible fields, in declared order. -/
def RType.names {P V E : Type} (T : RType P V E) : List String :=
  T.VisibleFields.map (fun field => field.Name)

/-- A member is skipped by the scan of `MarshalJSON`: its value is zero, or `json.Marshal`
fails on it. -/
def Codec.skips {V E : Type} (c : Codec V E) (v : V) : Prop :=
  c.IsZero v = true ∨ ∃ e, c.Marshal v = Except.error e

/-- The errors the loop of `UnmarshalJSON` has appended to `errs` when it leaves the given
fields: one `fmt.Errorf` per failed attempt, in order, up to the first member that
accepts. -/
def failures {P V E : Type} (data : Bytes) :
    List (StructField P V E) → P → List (FieldError E)
  | [], _ => []
  | field :: rest, payload =>
    match (field.Unmarshal data payload).2 with
    | some err =>
      FieldError.mk field.Name err :: failures data rest (field.Unmarshal data payload).1
    | none => []

/-- What a call does: it returns a value, or it panics. -/
inductive Outcome (α : Type)
  | returns (value : α)
  | panics
  deriving DecidableEq, Repr

/-- Whether `fval.Interface()` panics: `reflect` refuses a value obtained from an
unexported struct field, that is a field whose name does not start with an upper-case
letter (ASCII names). -/
def interfacePanics {P V E : Type} (field : StructField P V E) : Bool :=
  !(field.Name.get 0).isUpper

/-- The loop of lines 30-43 as statements on the receiver `a`: every iteration reads
`a.FieldName` and `a.Payload` and yields the receiver it leaves behind, and `Interface()`
is called on the field whose name matches. -/
def marshalNamedExec {P V E : Type} (c : Codec V E) :
    List (StructField P V E) → Any P → Any P × Outcome (Option Bytes)
  | [], a => (a, Outcome.returns none)
  | field :: rest, a =>
    if field.Name ≠ a.FieldName then
      marshalNamedExec c rest a
    else if interfacePanics field then
      (a, Outcome.panics)
    else
      match c.Marshal (field.FieldByIndex a.Payload) with
      | .error _ => marshalNamedExec c rest a
      | .ok p => (a, Outcome.returns (some p))

/-- The loop of lines 45-58 as statements on the receiver `a`: `IsZero` reads the field,
and `Interface()` is called on every field that is not zero. -/
def marshalSniffExec {P V E : Type} (c : Codec V E) :
    List (StructField P V E) → Any P → Any P × Outcome (Option Bytes)
  | [], a => (a, Outcome.returns none)
  | field :: rest, a =>
    if c.IsZero (field.FieldByIndex a.Payload) then
      marshalSniffExec c rest a
    else if interfacePanics field then
      (a, Outcome.panics)
    else
      match c.Marshal (field.FieldByIndex a.Payload) with
      | .error _ => marshalSniffExec c rest a
      | .ok p => (a, Outcome.returns (some p))

/-- The method `(a *Any[T]) MarshalJSON() ([]byte, error)` as a call on its pointer
receiver: the slot the call leaves behind, and whether the call returns, with which
values, or panics. -/
def MarshalJSON.exec {P V E : Type} (c : Codec V E) (T : RType P V E) (a : Any P) :
    Any P × Outcome (Bytes × Option (Error E)) :=
  if T.Kind ≠ Kind.Struct then
    (a, Outcome.returns ([], some (Error.New "must be a struct")))
  else
    let fields := T.VisibleFields
    let loop :=
      if a.FieldName ≠ "" then marshalNamedExec c fields a
      else marshalSniffExec c fields a
    match loop with
    | (a1, Outcome.panics) => (a1, Outcome.panics)
    | (a1, Outcome.returns (some p)) => (a1, Outcome.returns (p, none))
    | (a1, Outcome.returns none) => (a1, Outcome.returns (nullLiteral, none))

/-- A name selects a member of the record. -/
def RType.hasMember {P V E : Type} (T : RType P V E) (name : String) : Prop :=
  ∃ f ∈ T.VisibleFields, f.Name = name

/-! ## Lemmas on the loops -/

theorem marshalNamed_absent {P V E : Type} (c : Codec V E) (name : String) (payload : P)
    (fields : List (StructField P V E)) (h : ∀ f ∈ fields, f.Name ≠ name) :
    marshalNamed c name payload fields = none := by
  induction fields with
  | nil => rfl
  | cons f fs ih =>
    have hf : f.Name ≠ name := h f (List.mem_cons_self _ _)
    simp only [marshalNamed, hf, ne_eq, not_false_eq_true, if_true]
    exact ih (fun g hg => h g (List.mem_cons_of_mem _ hg))

theorem marshalNamed_append {P V E : Type} (c : Codec V E) (name : String) (payload : P)
    (before rest : List (StructField P V E)) (h : ∀ f ∈ before, f.Name ≠ name) :
    marshalNamed c name payload (before ++ rest) = marshalNamed c name payload rest := by
  induction before with
  | nil => rfl
  | cons f fs ih =>
    have hf : f.Name ≠ name := h f (List.mem_cons_self _ _)
    simp only [List.cons_append, marshalNamed, hf, ne_eq, not_false_eq_true, if_true]
    exact ih (fun g hg => h g (List.mem_cons_of_mem _ hg))

theorem marshalNamed_cons_hit {P V E : Type} (c : Codec V E) (payload : P)
    (M : StructField P V E) (rest : List (StructField P V E))
    (h : ∀ f ∈ rest, f.Name ≠ M.Name) :
    marshalNamed c M.Name payload (M :: rest) =
      (c.Marshal (M.FieldByIndex payload)).toOption := by
  simp only [marshalNamed, ne_eq, not_true_eq_false, if_false]
  cases hm : c.Marshal (M.FieldByIndex payload) with
  | error e => simpa [Except.toOption] using marshalNamed_absent c M.Name payload rest h
  | ok b => simp [Except.toOption]

theorem names_split {P V E : Type} (before after : List (StructField P V E))
    (M : StructField P V E)
    (hnodup : ((before ++ M :: after).map (fun field => field.Name)).Nodup) :
    (∀ f ∈ before, f.Name ≠ M.Name) ∧ (∀ f ∈ after, f.Name ≠ M.Name) := by
  rw [List.map_append, List.map_cons, List.nodup_append] at hnodup
  obtain ⟨_, hright, hdisj⟩ := hnodup
  rw [List.nodup_cons] at hright
  refine ⟨fun f hf heq => ?_, fun f hf heq => ?_⟩
  · exact hdisj (List.mem_map_of_mem _ hf) (by rw [heq]; exact List.mem_cons_self _ _)
  · exact hright.1 (by rw [← heq]; exact List.mem_map_of_mem _ hf)

theorem marshalNamed_of_mem {P V E : Type} (c : Codec V E) (payload : P)
    (fields : List (StructField P V E)) (M : StructField P V E)
    (hnodup : (fields.map (fun field => field.Name)).Nodup) (hmem : M ∈ fields) :
    marshalNamed c M.Name payload fields = (c.Marshal (M.FieldByIndex payload)).toOption := by
  obtain ⟨before, after, rfl⟩ := List.mem_iff_append.mp hmem
  obtain ⟨hb, ha⟩ := names_split before after M hnodup
  rw [marshalNamed_append c M.Name payload before (M :: after) hb]
  exact marshalNamed_cons_hit c payload M after ha

theorem marshalSniff_append {P V E : Type} (c : Codec V E) (payload : P)
    (before rest : List (StructField P V E))
    (h : ∀ f ∈ before, c.skips (f.FieldByIndex payload)) :
    marshalSniff c payload (before ++ rest) = marshalSniff c payload rest := by
  induction before with
  | nil => rfl
  | cons f fs ih =>
    have ih2 := ih (fun g hg => h g (List.mem_cons_of_mem _ hg))
    rcases h f (List.mem_cons_self _ _) with hz | ⟨e, he⟩
    · simp only [List.cons_append, marshalSniff, hz, if_true]
      exact ih2
    · simp only [List.cons_append, marshalSniff, he]
      split <;> exact ih2

theorem marshalSniff_all_skipped {P V E : Type} (c : Codec V E) (payload : P)
    (fields : List (StructField P V E))
    (h : ∀ f ∈ fields, c.skips (f.FieldByIndex payload)) :
    marshalSniff c payload fields = none := by
  have := marshalSniff_append c payload fields [] h
  simpa [marshalSniff] using this

theorem unmarshalLoop_reject {P V E : Type} (data : Bytes)
    (before rest : List (StructField P V E))
    (h : ∀ f ∈ before, ∀ p, (f.Unmarshal data p).2 ≠ none) :
    ∀ (errs : List (FieldError E)) (a : Any P),
      ∃ more : List (FieldError E), more.length = before.length ∧
        unmarshalLoop data (before ++ rest) errs a =
          unmarshalLoop data rest (errs ++ more)
            (Any.mk a.FieldName (attempts data before a.Payload)) := by
  induction before with
  | nil => intro errs a; exact ⟨[], rfl, by simp [attempts]⟩
  | cons f fs ih =>
    intro errs a
    have hf := h f (List.mem_cons_self _ _) a.Payload
    cases hres : f.Unmarshal data a.Payload with
    | mk payload err =>
      cases err with
      | none => rw [hres] at hf; exact absurd rfl hf
      | some e =>
        obtain ⟨more, hlen, heq⟩ :=
          ih (fun g hg => h g (List.mem_cons_of_mem _ hg))
            (errs ++ [FieldError.mk f.Name e]) (Any.mk a.FieldName payload)
        refine ⟨FieldError.mk f.Name e :: more, by simp [hlen], ?_⟩
        simp only [List.cons_append, unmarshalLoop, hres, attempts]
        simpa using heq

theorem unmarshalLoop_accept {P V E : Type} (data : Bytes) (M : StructField P V E)
    (rest : List (StructField P V E)) (errs : List (FieldError E)) (a : Any P)
    (h : (M.Unmarshal data a.Payload).2 = none) :
    unmarshalLoop data (M :: rest) errs a =
      (Any.mk M.Name (M.Unmarshal data a.Payload).1, none) := by
  cases hres : M.Unmarshal data a.Payload with
  | mk payload err =>
    rw [hres] at h
    simp only at h
    subst h
    simp [unmarshalLoop, hres]

theorem unmarshalLoop_first {P V E : Type} (data : Bytes)
    (before after : List (StructField P V E)) (M : StructField P V E) (a : Any P)
    (errs : List (FieldError E))
    (hrej : ∀ f ∈ before, ∀ p, (f.Unmarshal data p).2 ≠ none)
    (hacc : (M.Unmarshal data (attempts data before a.Payload)).2 = none) :
    unmarshalLoop data (before ++ M :: after) errs a =
      (Any.mk M.Name (M.Unmarshal data (attempts data before a.Payload)).1, none) := by
  obtain ⟨more, _, heq⟩ := unmarshalLoop_reject data before (M :: after) hrej errs a
  rw [heq]
  exact unmarshalLoop_accept data M after (errs ++ more) _ hacc

theorem marshalNamed_some {P V E : Type} (c : Codec V E) (name : String) (payload : P)
    (fields : List (StructField P V E)) (b : Bytes)
    (h : marshalNamed c name payload fields = some b) :
    ∃ f ∈ fields, c.Marshal (f.FieldByIndex payload) = Except.ok b := by
  induction fields with
  | nil => simp [marshalNamed] at h
  | cons f fs ih =>
    have lift : (∃ g ∈ fs, c.Marshal (g.FieldByIndex payload) = Except.ok b) →
        ∃ g ∈ f :: fs, c.Marshal (g.FieldByIndex payload) = Except.ok b :=
      fun ⟨g, hg, hgb⟩ => ⟨g, List.mem_cons_of_mem _ hg, hgb⟩
    by_cases hn : f.Name = name
    · cases hm : c.Marshal (f.FieldByIndex payload) with
      | error e =>
        simp only [marshalNamed, hn, ne_eq, not_true_eq_false, if_false, hm] at h
        exact lift (ih h)
      | ok p =>
        simp only [marshalNamed, hn, ne_eq, not_true_eq_false, if_false, hm,
          Option.some.injEq] at h
        exact ⟨f, List.mem_cons_self _ _, by rw [hm, h]⟩
    · simp only [marshalNamed, hn, ne_eq, not_false_eq_true, if_true] at h
      exact lift (ih h)

theorem marshalSniff_some {P V E : Type} (c : Codec V E) (payload : P)
    (fields : List (StructField P V E)) (b : Bytes)
    (h : marshalSniff c payload fields = some b) :
    ∃ f ∈ fields, c.Marshal (f.FieldByIndex payload) = Except.ok b := by
  induction fields with
  | nil => simp [marshalSniff] at h
  | cons f fs ih =>
    have lift : (∃ g ∈ fs, c.Marshal (g.FieldByIndex payload) = Except.ok b) →
        ∃ g ∈ f :: fs, c.Marshal (g.FieldByIndex payload) = Except.ok b :=
      fun ⟨g, hg, hgb⟩ => ⟨g, List.mem_cons_of_mem _ hg, hgb⟩
    cases hz : c.IsZero (f.FieldByIndex payload) with
    | true =>
      simp only [marshalSniff, hz, if_true] at h
      exact lift (ih h)
    | false =>
      cases hm : c.Marshal (f.FieldByIndex payload) with
      | error e =>
        simp [marshalSniff, hz, hm] at h
        exact lift (ih h)
      | ok p =>
        simp [marshalSniff, hz, hm] at h
        exact ⟨f, List.mem_cons_self _ _, by rw [hm, h]⟩

theorem errorsJoin_ne_none {E : Type} (errs : List (FieldError E)) (h : errs ≠ []) :
    errorsJoin errs ≠ none := by
  cases errs with
  | nil => exact absurd rfl h
  | cons e es => simp [errorsJoin]

theorem unmarshalLoop_all_reject {P V E : Type} (data : Bytes)
    (fields : List (StructField P V E)) (errs : List (FieldError E)) (a : Any P)
    (h : ∀ f ∈ fields, ∀ p, (f.Unmarshal data p).2 ≠ none) :
    ∃ more : List (FieldError E), more.length = fields.length ∧
      unmarshalLoop data fields errs a =
        (Any.mk a.FieldName (attempts data fields a.Payload), errorsJoin (errs ++ more)) := by
  obtain ⟨more, hlen, heq⟩ := unmarshalLoop_reject data fields [] h errs a
  refine ⟨more, hlen, ?_⟩
  rw [List.append_nil] at heq
  rw [heq]
  rfl

/-! ## MarshalJSON and UnmarshalJSON on a struct record -/

theorem marshalJSON_named {P V E : Type} (c : Codec V E) (T : RType P V E) (a : Any P)
    (M : StructField P V E) (hkind : T.Kind = Kind.Struct) (hmem : M ∈ T.VisibleFields)
    (hnodup : T.names.Nodup) (hname : M.Name ≠ "") (hsel : a.FieldName = M.Name) :
    MarshalJSON c T a =
      (match c.Marshal (M.FieldByIndex a.Payload) with
        | Except.ok b => (b, none)
        | Except.error _ => (nullLiteral, none)) := by
  have hfound := marshalNamed_of_mem c a.Payload T.VisibleFields M hnodup hmem
  have hne : a.FieldName ≠ "" := by rw [hsel]; exact hname
  simp only [MarshalJSON, hkind, ne_eq, not_true_eq_false, if_false, hne, not_false_eq_true,
    if_true, hsel, hfound]
  cases c.Marshal (M.FieldByIndex a.Payload) <;> simp [Except.toOption, hname]

theorem marshalJSON_sniff {P V E : Type} (c : Codec V E) (T : RType P V E) (a : Any P)
    (hkind : T.Kind = Kind.Struct) (hsel : a.FieldName = "") :
    MarshalJSON c T a =
      (match marshalSniff c a.Payload T.VisibleFields with
        | some b => (b, none)
        | none => (nullLiteral, none)) := by
  simp [MarshalJSON, hkind, hsel]

theorem unmarshalJSON_first {P V E : Type} (T : RType P V E) (data : Bytes) (a : Any P)
    (before after : List (StructField P V E)) (M : StructField P V E)
    (hkind : T.Kind = Kind.Struct) (hfields : T.VisibleFields = before ++ M :: after)
    (hrej : ∀ f ∈ before, ∀ p, (f.Unmarshal data p).2 ≠ none)
    (hacc : (M.Unmarshal data (attempts data before a.Payload)).2 = none) :
    UnmarshalJSON T data a =
      (Any.mk M.Name (M.Unmarshal data (attempts data before a.Payload)).1, none) := by
  simp only [UnmarshalJSON, hkind, ne_eq, not_true_eq_false, if_false, hfields]
  exact unmarshalLoop_first data before after M a [] hrej hacc

theorem marshalJSON_absent {P V E : Type} (c : Codec V E) (T : RType P V E) (a : Any P)
    (hkind : T.Kind = Kind.Struct) (hne : a.FieldName ≠ "")
    (habsent : ∀ f ∈ T.VisibleFields, f.Name ≠ a.FieldName) :
    MarshalJSON c T a = (nullLiteral, none) := by
  simp [MarshalJSON, hkind, hne, marshalNamed_absent c a.FieldName a.Payload T.VisibleFields
    habsent]

theorem marshalJSON_struct_ok {P V E : Type} (c : Codec V E) (T : RType P V E) (a : Any P)
    (hkind : T.Kind = Kind.Struct) :
    (MarshalJSON c T a).2 = none := by
  simp only [MarshalJSON, hkind, ne_eq, not_true_eq_false, if_false]
  split <;> rfl

theorem marshalJSON_struct_bytes {P V E : Type} (c : Codec V E) (T : RType P V E) (a : Any P)
    (hkind : T.Kind = Kind.Struct) :
    (MarshalJSON c T a).1 = nullLiteral ∨
      ∃ f ∈ T.VisibleFields, c.Marshal (f.FieldByIndex a.Payload) =
        Except.ok (MarshalJSON c T a).1 := by
  simp only [MarshalJSON, hkind, ne_eq, not_true_eq_false, if_false]
  split
  · rename_i b hfound
    right
    by_cases hn : a.FieldName = ""
    · simp only [hn, not_true_eq_false, if_false] at hfound
      exact marshalSniff_some c a.Payload T.VisibleFields b hfound
    · simp only [hn, not_false_eq_true, if_true] at hfound
      exact marshalNamed_some c a.FieldName a.Payload T.VisibleFields b hfound
  · left; rfl

theorem unmarshalJSON_all_reject {P V E : Type} (T : RType P V E) (data : Bytes) (a : Any P)
    (hkind : T.Kind = Kind.Struct) (hsome : T.VisibleFields ≠ [])
    (hrej : ∀ f ∈ T.VisibleFields, ∀ p, (f.Unmarshal data p).2 ≠ none) :
    (UnmarshalJSON T data a).2 ≠ none ∧ (UnmarshalJSON T data a).1.FieldName = a.FieldName := by
  obtain ⟨more, hlen, heq⟩ := unmarshalLoop_all_reject data T.VisibleFields [] a hrej
  simp only [UnmarshalJSON, hkind, ne_eq, not_true_eq_false, if_false, heq, List.nil_append]
  refine ⟨errorsJoin_ne_none more ?_, trivial⟩
  intro hnil
  rw [hnil, List.length_nil] at hlen
  exact hsome (List.length_eq_zero.mp hlen.symm)

/-! ## The claims -/

/-- C1 (round trip).  Let `M` be a member of a struct record and `v` a value such that
(i) `json.Marshal` of `v` succeeds with bytes `b`, (ii) the decoder of `M` applied to `b`
succeeds and stores `v`, and (iii) every member declared before `M` rejects `b`.  Then
`MarshalJSON` on a slot with `FieldName` the name of `M` and `M` holding `v` returns `b`
and no error, and `UnmarshalJSON` of these bytes into any slot returns no error, sets
`FieldName` to the name of `M` and leaves `M` holding exactly `v`. -/
theorem roundtrip_marshal_unmarshal {P V E : Type} (c : Codec V E) (T : RType P V E)
    (before after : List (StructField P V E)) (M : StructField P V E) (v : V) (b : Bytes)
    (src dst : Any P)
    (hkind : T.Kind = Kind.Struct) (hfields : T.VisibleFields = before ++ M :: after)
    (hnodup : T.names.Nodup) (hname : M.Name ≠ "")
    (hsel : src.FieldName = M.Name) (hval : M.FieldByIndex src.Payload = v)
    (hser : c.Marshal v = Except.ok b)
    (hdec : ∀ p, (M.Unmarshal b p).2 = none ∧ M.FieldByIndex (M.Unmarshal b p).1 = v)
    (hrej : ∀ f ∈ before, ∀ p, (f.Unmarshal b p).2 ≠ none) :
    MarshalJSON c T src = (b, none) ∧
      (UnmarshalJSON T (MarshalJSON c T src).1 dst).2 = none ∧
      (UnmarshalJSON T (MarshalJSON c T src).1 dst).1.FieldName = M.Name ∧
      M.FieldByIndex (UnmarshalJSON T (MarshalJSON c T src).1 dst).1.Payload = v := by
  have hmem : M ∈ T.VisibleFields := by rw [hfields]; simp
  have henc : MarshalJSON c T src = (b, none) := by
    rw [marshalJSON_named c T src M hkind hmem hnodup hname hsel, hval, hser]
  have hdecode := unmarshalJSON_first T b dst before after M hkind hfields hrej
    (hdec (attempts b before dst.Payload)).1
  rw [henc]
  refine ⟨rfl, ?_, ?_, ?_⟩
  · rw [hdecode]
  · rw [hdecode]
  · rw [hdecode]; exact (hdec (attempts b before dst.Payload)).2

/-- C2 (decode priority).  In a struct record whose fields are `before ++ M :: after`, if
every member of `before` rejects the input and `M` accepts it, then `UnmarshalJSON` returns
no error, sets `FieldName` to the name of `M`, the earliest accepting member, whatever the
members of `after` would do with the input, and the payload is the one the decoder of `M`
produced, so that `M` holds the decoded value. -/
theorem unmarshal_selects_earliest {P V E : Type} (T : RType P V E) (data : Bytes)
    (a : Any P) (before after : List (StructField P V E)) (M : StructField P V E)
    (hkind : T.Kind = Kind.Struct) (hfields : T.VisibleFields = before ++ M :: after)
    (hrej : ∀ f ∈ before, ∀ p, (f.Unmarshal data p).2 ≠ none)
    (hacc : (M.Unmarshal data (attempts data before a.Payload)).2 = none) :
    (UnmarshalJSON T data a).2 = none ∧
      (UnmarshalJSON T data a).1.FieldName = M.Name ∧
      (UnmarshalJSON T data a).1.Payload =
        (M.Unmarshal data (attempts data before a.Payload)).1 ∧
      M.FieldByIndex (UnmarshalJSON T data a).1.Payload =
        M.FieldByIndex (M.Unmarshal data (attempts data before a.Payload)).1 := by
  rw [unmarshalJSON_first T data a before after M hkind hfields hrej hacc]
  exact ⟨rfl, rfl, rfl, rfl⟩

/-- C3 (explicit encode).  In a struct record, when `FieldName` is the name of a member `M`
and `json.Marshal` of the current value of `M` succeeds with bytes `b`, `MarshalJSON`
returns exactly `b` and no error, whatever the other members hold; and every slot with the
same `FieldName` that agrees on `M` produces the same result. -/
theorem marshal_explicit {P V E : Type} (c : Codec V E) (T : RType P V E) (a : Any P)
    (M : StructField P V E) (b : Bytes)
    (hkind : T.Kind = Kind.Struct) (hmem : M ∈ T.VisibleFields)
    (hnodup : T.names.Nodup) (hname : M.Name ≠ "") (hsel : a.FieldName = M.Name)
    (hser : c.Marshal (M.FieldByIndex a.Payload) = Except.ok b) :
    MarshalJSON c T a = (b, none) ∧
      ∀ a2 : Any P, a2.FieldName = a.FieldName →
        M.FieldByIndex a2.Payload = M.FieldByIndex a.Payload →
        MarshalJSON c T a2 = MarshalJSON c T a := by
  refine ⟨?_, fun a2 hsel2 hagree => ?_⟩
  · rw [marshalJSON_named c T a M hkind hmem hnodup hname hsel, hser]
  · rw [marshalJSON_named c T a M hkind hmem hnodup hname hsel,
      marshalJSON_named c T a2 M hkind hmem hnodup hname (hsel2.trans hsel), hagree]

/-- C4 (sniffing encode).  In a struct record with `FieldName` empty whose fields are
`before ++ M :: after`, if every member of `before` is zero or fails to serialize, and `M`
is non-zero and serializes to `b`, then `MarshalJSON` returns exactly `b` and no error:
the members of `before` are skipped and no member of `after` is emitted. -/
theorem marshal_sniff_first {P V E : Type} (c : Codec V E) (T : RType P V E) (a : Any P)
    (before after : List (StructField P V E)) (M : StructField P V E) (b : Bytes)
    (hkind : T.Kind = Kind.Struct) (hsel : a.FieldName = "")
    (hfields : T.VisibleFields = before ++ M :: after)
    (hskip : ∀ f ∈ before, c.skips (f.FieldByIndex a.Payload))
    (hnz : c.IsZero (M.FieldByIndex a.Payload) = false)
    (hser : c.Marshal (M.FieldByIndex a.Payload) = Except.ok b) :
    MarshalJSON c T a = (b, none) := by
  rw [marshalJSON_sniff c T a hkind hsel, hfields,
    marshalSniff_append c a.Payload before (M :: after) hskip]
  simp [marshalSniff, hnz, hser]

/-- C5 (null fallback).  In a struct record with `FieldName` empty in which every member
is zero or fails to serialize (in particular a record without members), `MarshalJSON`
returns no error and exactly the four bytes `null`. -/
theorem marshal_null_fallback {P V E : Type} (c : Codec V E) (T : RType P V E) (a : Any P)
    (hkind : T.Kind = Kind.Struct) (hsel : a.FieldName = "")
    (hall : ∀ f ∈ T.VisibleFields, c.skips (f.FieldByIndex a.Payload)) :
    MarshalJSON c T a = (nullLiteral, none) ∧
      (MarshalJSON c T a).1 = [0x6e, 0x75, 0x6c, 0x6c] ∧
      (MarshalJSON c T a).1.length = 4 := by
  have h : MarshalJSON c T a = (nullLiteral, none) := by
    rw [marshalJSON_sniff c T a hkind hsel,
      marshalSniff_all_skipped c a.Payload T.VisibleFields hall]
  rw [h]
  exact ⟨rfl, rfl, rfl⟩

/-- C6, as amended.  In a struct record, for a non-empty `FieldName` that names no member,
`MarshalJSON` returns no error and does not fall back to the scan: it returns the literal
`null`.  Its bytes are those of `MarshalJSON` on the same payload with `FieldName` empty
exactly when that scan emits no member or emits the bytes `null`, in particular whenever
every member is zero or fails to serialize. -/
theorem marshal_absent_name_no_fallback {P V E : Type} (c : Codec V E)
    (T : RType P V E) (a : Any P)
    (hkind : T.Kind = Kind.Struct) (hne : a.FieldName ≠ "")
    (habsent : ∀ f ∈ T.VisibleFields, f.Name ≠ a.FieldName) :
    (MarshalJSON c T a).2 = none ∧
      (MarshalJSON c T a).1 = nullLiteral ∧
      ((MarshalJSON c T a).1 = (MarshalJSON c T (Any.mk "" a.Payload)).1 ↔
        (marshalSniff c a.Payload T.VisibleFields = none ∨
          marshalSniff c a.Payload T.VisibleFields = some nullLiteral)) ∧
      ((∀ f ∈ T.VisibleFields, c.skips (f.FieldByIndex a.Payload)) →
        MarshalJSON c T a = MarshalJSON c T (Any.mk "" a.Payload)) := by
  have hnull := marshalJSON_absent c T a hkind hne habsent
  have hsniff := marshalJSON_sniff c T (Any.mk "" a.Payload) hkind rfl
  refine ⟨by rw [hnull], by rw [hnull], ?_, fun hall => ?_⟩
  · rw [hnull, hsniff]
    cases hs : marshalSniff c a.Payload T.VisibleFields with
    | none => simp
    | some b =>
      simp only [Option.some.injEq, false_or, reduceCtorEq]
      exact ⟨fun h => h.symm, fun h => h.symm⟩
  · rw [hnull, hsniff, marshalSniff_all_skipped c a.Payload T.VisibleFields hall]

/-- C6, counterexample.  In `struct { Int int; Str string }` the name `X` is not empty and
names no member; with `Int = 42` the slot with `FieldName = "X"` is encoded as `null`
while the slot with `FieldName` empty is encoded as `42`. -/
theorem marshal_absent_name_no_scan :
    "X" ≠ "" ∧ (∀ f ∈ intStrType.VisibleFields, f.Name ≠ "X") ∧
      MarshalJSON testCodec intStrType (Any.mk "X" (IntStr.mk 42 [])) = (ascii "null", none) ∧
      MarshalJSON testCodec intStrType (Any.mk "" (IntStr.mk 42 [])) = (ascii "42", none) ∧
      (MarshalJSON testCodec intStrType (Any.mk "X" (IntStr.mk 42 []))).1 ≠
        (MarshalJSON testCodec intStrType (Any.mk "" (IntStr.mk 42 []))).1 := by
  decide

/-- C7.  In a struct record, for a non-empty `FieldName` that names no member,
`MarshalJSON` returns no error and exactly the literal `null`, for every codec and
whatever the members hold. -/
theorem marshal_absent_name_null {P V E : Type} (c : Codec V E) (T : RType P V E)
    (a : Any P)
    (hkind : T.Kind = Kind.Struct) (hne : a.FieldName ≠ "")
    (habsent : ∀ f ∈ T.VisibleFields, f.Name ≠ a.FieldName) :
    MarshalJSON c T a = (nullLiteral, none) ∧
      ∀ (c2 : Codec V E) (payload : P),
        MarshalJSON c2 T (Any.mk a.FieldName payload) = (nullLiteral, none) :=
  ⟨marshalJSON_absent c T a hkind hne habsent,
    fun c2 payload => marshalJSON_absent c2 T (Any.mk a.FieldName payload) hkind hne habsent⟩

/-- C8.  In a struct record, when `FieldName` names a member `M` on whose value
`json.Marshal` fails, `MarshalJSON` returns no error and exactly the literal `null`,
whatever the other members hold: no other member is tried. -/
theorem marshal_explicit_failure_null {P V E : Type} (c : Codec V E) (T : RType P V E)
    (a : Any P) (M : StructField P V E) (e : E)
    (hkind : T.Kind = Kind.Struct) (hmem : M ∈ T.VisibleFields)
    (hnodup : T.names.Nodup) (hname : M.Name ≠ "") (hsel : a.FieldName = M.Name)
    (hfail : c.Marshal (M.FieldByIndex a.Payload) = Except.error e) :
    MarshalJSON c T a = (nullLiteral, none) := by
  rw [marshalJSON_named c T a M hkind hmem hnodup hname hsel, hfail]

/-- When the library calls return and the successful output of `json.Marshal` is never
empty, the error of `MarshalJSON` is non-nil if and only if `T` is not a struct: for a
non-struct `T` there are no bytes, for a struct `T` the error is nil and the bytes are
not empty. -/
theorem marshal_error_iff_not_struct {P V E : Type} (c : Codec V E) (T : RType P V E)
    (a : Any P) (hout : ∀ v b, c.Marshal v = Except.ok b → b ≠ []) :
    ((MarshalJSON c T a).2 ≠ none ↔ T.Kind ≠ Kind.Struct) ∧
      (T.Kind ≠ Kind.Struct →
        MarshalJSON c T a = ([], some (Error.New "must be a struct"))) ∧
      (T.Kind = Kind.Struct →
        (MarshalJSON c T a).2 = none ∧ (MarshalJSON c T a).1 ≠ []) := by
  have hnot : T.Kind ≠ Kind.Struct →
      MarshalJSON c T a = ([], some (Error.New "must be a struct")) := by
    intro hk
    simp [MarshalJSON, hk]
  have hstruct : T.Kind = Kind.Struct →
      (MarshalJSON c T a).2 = none ∧ (MarshalJSON c T a).1 ≠ [] := by
    intro hk
    refine ⟨marshalJSON_struct_ok c T a hk, ?_⟩
    rcases marshalJSON_struct_bytes c T a hk with hnull | ⟨f, _, hf⟩
    · rw [hnull]; decide
    · exact hout _ _ hf
  refine ⟨⟨fun herr hk => herr (hstruct hk).1, fun hk => ?_⟩, hnot, hstruct⟩
  rw [hnot hk]
  simp

/-- C10, the failing input.  The record `struct {}` has no member, so no member accepts
the input `42`, and `UnmarshalJSON` returns the nil error and leaves the slot as it
was. -/
theorem unmarshal_empty_struct_no_error :
    emptyStructType.Kind = Kind.Struct ∧
      (∀ f ∈ emptyStructType.VisibleFields, ∀ p, (f.Unmarshal (ascii "42") p).2 ≠ none) ∧
      UnmarshalJSON emptyStructType (ascii "42") (Any.mk "" ()) = (Any.mk "" (), none) := by
  refine ⟨rfl, ?_, by decide⟩
  intro f hf
  simp [emptyStructType] at hf

/-! ## The claims on the test records -/

theorem toDigitsCore_ne_nil (base fuel n : Nat) (ds : List Char) (h : ds ≠ []) :
    Nat.toDigitsCore base fuel n ds ≠ [] := by
  induction fuel generalizing n ds with
  | zero => simpa [Nat.toDigitsCore] using h
  | succ k ih =>
    simp only [Nat.toDigitsCore]
    split
    · simp
    · exact ih _ _ (by simp)

theorem digitsOf_ne_nil (n : Nat) : digitsOf n ≠ [] := by
  have h : Nat.toDigits 10 n ≠ [] := by
    simp only [Nat.toDigits, Nat.toDigitsCore]
    split
    · simp
    · exact toDigitsCore_ne_nil _ _ _ _ (by simp)
  simpa [digitsOf] using h

theorem testCodec_output_ne_nil (v : GoValue) (b : Bytes)
    (h : testCodec.Marshal v = Except.ok b) : b ≠ [] := by
  cases v with
  | int n =>
    simp only [testCodec, Except.ok.injEq] at h
    subst h
    unfold itoa
    split
    · simp
    · exact digitsOf_ne_nil _
  | string s =>
    simp only [testCodec, Except.ok.injEq] at h
    subst h
    simp [quote]
  | func isNil => simp [testCodec] at h

theorem unmarshalInt_rejects_string (old : Int) :
    (unmarshalInt (quote (ascii "towel")) old).2 ≠ none := by
  have h1 : ¬ trim (quote (ascii "towel")) = ascii "null" := by decide
  have h2 : intLit (trim (quote (ascii "towel"))) = none := by decide
  simp [unmarshalInt, h1, h2]

theorem unmarshalString_accepts_string (old : Bytes) :
    unmarshalString (quote (ascii "towel")) old = (ascii "towel", none) := by
  have h1 : ¬ trim (quote (ascii "towel")) = ascii "null" := by decide
  have h2 : strLit (trim (quote (ascii "towel"))) = some (ascii "towel") := by decide
  simp [unmarshalString, h1, h2]

/-- C1, witness: the record `struct { Int int; Str string }`, the member `Str` and the
value `towel`. -/
theorem roundtrip_marshal_unmarshal_witness :
    MarshalJSON testCodec intStrType (Any.mk "Str" (IntStr.mk 42 (ascii "towel"))) =
        (quote (ascii "towel"), none) ∧
      (UnmarshalJSON intStrType
        (MarshalJSON testCodec intStrType (Any.mk "Str" (IntStr.mk 42 (ascii "towel")))).1
        (Any.mk "" (IntStr.mk 0 []))).2 = none ∧
      (UnmarshalJSON intStrType
        (MarshalJSON testCodec intStrType (Any.mk "Str" (IntStr.mk 42 (ascii "towel")))).1
        (Any.mk "" (IntStr.mk 0 []))).1.FieldName = fieldStr.Name ∧
      fieldStr.FieldByIndex (UnmarshalJSON intStrType
        (MarshalJSON testCodec intStrType (Any.mk "Str" (IntStr.mk 42 (ascii "towel")))).1
        (Any.mk "" (IntStr.mk 0 []))).1.Payload = GoValue.string (ascii "towel") :=
  roundtrip_marshal_unmarshal testCodec intStrType [fieldInt] [] fieldStr
    (GoValue.string (ascii "towel")) (quote (ascii "towel"))
    (Any.mk "Str" (IntStr.mk 42 (ascii "towel"))) (Any.mk "" (IntStr.mk 0 []))
    rfl rfl (by decide) (by decide) rfl rfl rfl
    (fun p =>
      ⟨by simp [fieldStr, unmarshalString_accepts_string],
        by simp [fieldStr, unmarshalString_accepts_string]⟩)
    (fun f hf p => by
      have hf2 : f = fieldInt := by simpa using hf
      subst hf2
      exact unmarshalInt_rejects_string p.Int)

/-- C2, witness: the input `null` is accepted by both members of
`struct { Int int; Str string }`, and the earlier one, `Int`, is selected. -/
theorem unmarshal_selects_earliest_witness :
    (fieldStr.Unmarshal (ascii "null") (IntStr.mk 7 [])).2 = none ∧
      (UnmarshalJSON intStrType (ascii "null") (Any.mk "" (IntStr.mk 7 []))).2 = none ∧
      (UnmarshalJSON intStrType (ascii "null") (Any.mk "" (IntStr.mk 7 []))).1.FieldName =
        fieldInt.Name ∧
      (UnmarshalJSON intStrType (ascii "null") (Any.mk "" (IntStr.mk 7 []))).1.Payload =
        (fieldInt.Unmarshal (ascii "null") (IntStr.mk 7 [])).1 ∧
      fieldInt.FieldByIndex
          (UnmarshalJSON intStrType (ascii "null") (Any.mk "" (IntStr.mk 7 []))).1.Payload =
        fieldInt.FieldByIndex
          (fieldInt.Unmarshal (ascii "null") (IntStr.mk 7 [])).1 :=
  ⟨by decide,
    unmarshal_selects_earliest intStrType (ascii "null") (Any.mk "" (IntStr.mk 7 []))
      [] [fieldStr] fieldInt rfl rfl (fun f hf => by simp at hf) (by decide)⟩

/-- C3, witness: the test `int explicit`, with `Int = 42`, `Str = towel` and
`FieldName = Int`. -/
theorem marshal_explicit_witness :
    MarshalJSON testCodec intStrType (Any.mk "Int" (IntStr.mk 42 (ascii "towel"))) =
        (ascii "42", none) ∧
      ∀ a2 : Any IntStr, a2.FieldName = "Int" →
        fieldInt.FieldByIndex a2.Payload = GoValue.int 42 →
        MarshalJSON testCodec intStrType a2 =
          MarshalJSON testCodec intStrType (Any.mk "Int" (IntStr.mk 42 (ascii "towel"))) :=
  marshal_explicit testCodec intStrType (Any.mk "Int" (IntStr.mk 42 (ascii "towel")))
    fieldInt (ascii "42") rfl (by simp [intStrType]) (by decide) (by decide) rfl
    (congrArg Except.ok (by decide : itoa 42 = ascii "42"))

/-- C4, witness: in `struct { F func(); N int }` with `F` non-nil and `N = 7` the member
`F` fails to serialize and is skipped, and `7` is emitted. -/
theorem marshal_sniff_first_witness :
    MarshalJSON testCodec funcIntType (Any.mk "" (FuncInt.mk false 7)) = (ascii "7", none) :=
  marshal_sniff_first testCodec funcIntType (Any.mk "" (FuncInt.mk false 7))
    [fieldFuncF] [] fieldFuncN (ascii "7") rfl rfl rfl
    (fun f hf => by
      have hf2 : f = fieldFuncF := by simpa using hf
      subst hf2
      exact Or.inr ⟨JSONError.UnsupportedType, rfl⟩)
    (by decide) (congrArg Except.ok (by decide : itoa 7 = ascii "7"))

/-- C5, witness: the test `invalid field sniff`, `struct { F func() }` with `F` non-nil. -/
theorem marshal_null_fallback_witness :
    MarshalJSON testCodec invalidFieldType (Any.mk "" false) = (nullLiteral, none) ∧
      (MarshalJSON testCodec invalidFieldType (Any.mk "" false)).1 =
        [0x6e, 0x75, 0x6c, 0x6c] ∧
      (MarshalJSON testCodec invalidFieldType (Any.mk "" false)).1.length = 4 :=
  marshal_null_fallback testCodec invalidFieldType (Any.mk "" false) rfl rfl
    (fun f hf => by
      have hf2 : f = fieldF := by simpa [invalidFieldType] using hf
      subst hf2
      exact Or.inr ⟨JSONError.UnsupportedType, rfl⟩)

/-- C6 as amended, witness: in `struct { Int int; Str string }` with `FieldName = X` the
result is `null`; with both members zero it is the result for the empty `FieldName`. -/
theorem marshal_absent_name_no_fallback_witness :
    (MarshalJSON testCodec intStrType (Any.mk "X" (IntStr.mk 42 []))).1 = nullLiteral ∧
      MarshalJSON testCodec intStrType (Any.mk "X" (IntStr.mk 0 [])) =
        MarshalJSON testCodec intStrType (Any.mk "" (IntStr.mk 0 [])) :=
  ⟨(marshal_absent_name_no_fallback testCodec intStrType (Any.mk "X" (IntStr.mk 42 []))
      rfl (by decide) (by decide)).2.1,
    (marshal_absent_name_no_fallback testCodec intStrType (Any.mk "X" (IntStr.mk 0 []))
      rfl (by decide) (by decide)).2.2.2
      (fun f hf => by
        have hf2 : f = fieldInt ∨ f = fieldStr := by simpa [intStrType] using hf
        rcases hf2 with rfl | rfl
        · exact Or.inl rfl
        · exact Or.inl rfl)⟩

/-- C7, witness: `struct { Int int; Str string }` with `Int = 42`, `Str = towel` and
`FieldName = X`. -/
theorem marshal_absent_name_null_witness :
    MarshalJSON testCodec intStrType (Any.mk "X" (IntStr.mk 42 (ascii "towel"))) =
        (nullLiteral, none) ∧
      ∀ (c2 : Codec GoValue JSONError) (payload : IntStr),
        MarshalJSON c2 intStrType (Any.mk "X" payload) = (nullLiteral, none) :=
  marshal_absent_name_null testCodec intStrType (Any.mk "X" (IntStr.mk 42 (ascii "towel")))
    rfl (by decide) (by decide)

/-- C8, witness: in `struct { F func(); N int }` with `F` non-nil, `N = 7` and
`FieldName = F` the result is `null`, although `N` would serialize. -/
theorem marshal_explicit_failure_null_witness :
    testCodec.Marshal (fieldFuncN.FieldByIndex (FuncInt.mk false 7)) = Except.ok (ascii "7") ∧
      MarshalJSON testCodec funcIntType (Any.mk "F" (FuncInt.mk false 7)) =
        (nullLiteral, none) :=
  ⟨congrArg Except.ok (by decide : itoa 7 = ascii "7"),
    marshal_explicit_failure_null testCodec funcIntType (Any.mk "F" (FuncInt.mk false 7))
      fieldFuncF JSONError.UnsupportedType rfl (by simp [funcIntType]) (by decide) (by decide)
      rfl rfl⟩

/-! ## Lemmas on failed and successful decodes -/

theorem unmarshalLoop_failures {P V E : Type} (data : Bytes)
    (fields : List (StructField P V E))
    (h : ∀ f ∈ fields, ∀ p, (f.Unmarshal data p).2 ≠ none) :
    ∀ (errs : List (FieldError E)) (a : Any P),
      unmarshalLoop data fields errs a =
        (Any.mk a.FieldName (attempts data fields a.Payload),
          errorsJoin (errs ++ failures data fields a.Payload)) := by
  induction fields with
  | nil => intro errs a; simp [unmarshalLoop, attempts, failures]
  | cons f fs ih =>
    intro errs a
    have hf := h f (List.mem_cons_self _ _) a.Payload
    cases hres : f.Unmarshal data a.Payload with
    | mk payload err =>
      cases err with
      | none => rw [hres] at hf; exact absurd rfl hf
      | some e =>
        simp only [unmarshalLoop, hres, attempts, failures]
        rw [ih (fun g hg => h g (List.mem_cons_of_mem _ hg))]
        simp

theorem failures_names {P V E : Type} (data : Bytes) (fields : List (StructField P V E))
    (h : ∀ f ∈ fields, ∀ p, (f.Unmarshal data p).2 ≠ none) :
    ∀ payload : P, (failures data fields payload).map (fun e => e.Name) =
      fields.map (fun field => field.Name) := by
  induction fields with
  | nil => intro payload; simp [failures]
  | cons f fs ih =>
    intro payload
    have hf := h f (List.mem_cons_self _ _) payload
    cases hres : (f.Unmarshal data payload).2 with
    | none => exact absurd hres hf
    | some e =>
      simp only [failures, hres, List.map_cons]
      rw [ih (fun g hg => h g (List.mem_cons_of_mem _ hg))]

theorem failures_getElem? {P V E : Type} (data : Bytes) (fields : List (StructField P V E))
    (h : ∀ f ∈ fields, ∀ p, (f.Unmarshal data p).2 ≠ none) :
    ∀ (payload : P) (i : Nat) (f : StructField P V E), fields[i]? = some f →
      ((failures data fields payload)[i]?).map (fun e => e.Err) =
        (f.Unmarshal data (attempts data (fields.take i) payload)).2 := by
  induction fields with
  | nil => intro payload i f hi; simp at hi
  | cons g gs ih =>
    intro payload i f hi
    have hg := h g (List.mem_cons_self _ _) payload
    cases hres : (g.Unmarshal data payload).2 with
    | none => exact absurd hres hg
    | some e =>
      cases i with
      | zero =>
        have hfg : g = f := by simpa using hi
        subst hfg
        simp [failures, hres, attempts]
      | succ j =>
        have hj : gs[j]? = some f := by simpa using hi
        have := ih (fun k hk => h k (List.mem_cons_of_mem _ hk))
          (g.Unmarshal data payload).1 j f hj
        simpa [failures, hres, attempts] using this

theorem attempts_frame {P V E : Type} (data : Bytes) (g : StructField P V E)
    (fields : List (StructField P V E))
    (h : ∀ f ∈ fields, ∀ p, g.FieldByIndex (f.Unmarshal data p).1 = g.FieldByIndex p) :
    ∀ payload : P, g.FieldByIndex (attempts data fields payload) = g.FieldByIndex payload := by
  induction fields with
  | nil => intro payload; rfl
  | cons f fs ih =>
    intro payload
    simp only [attempts]
    rw [ih (fun k hk => h k (List.mem_cons_of_mem _ hk)), h f (List.mem_cons_self _ _)]

theorem unmarshalLoop_error_keeps_name {P V E : Type} (data : Bytes)
    (fields : List (StructField P V E)) :
    ∀ (errs : List (FieldError E)) (a : Any P),
      (unmarshalLoop data fields errs a).2 ≠ none →
        (unmarshalLoop data fields errs a).1.FieldName = a.FieldName := by
  induction fields with
  | nil => intro errs a _; rfl
  | cons f fs ih =>
    intro errs a
    cases hres : f.Unmarshal data a.Payload with
    | mk payload err =>
      cases err with
      | none => simp [unmarshalLoop, hres]
      | some e =>
        simp only [unmarshalLoop, hres]
        exact ih _ _

theorem unmarshalLoop_success_names_member {P V E : Type} (data : Bytes)
    (fields : List (StructField P V E)) :
    ∀ (errs : List (FieldError E)) (a : Any P),
      (unmarshalLoop data fields errs a).2 = none → (errs ≠ [] ∨ fields ≠ []) →
        ∃ f ∈ fields, f.Name = (unmarshalLoop data fields errs a).1.FieldName := by
  induction fields with
  | nil =>
    intro errs a hok hne
    rcases hne with hne | hne
    · simp only [unmarshalLoop] at hok
      exact absurd hok (errorsJoin_ne_none errs hne)
    · exact absurd rfl hne
  | cons f fs ih =>
    intro errs a
    cases hres : f.Unmarshal data a.Payload with
    | mk payload err =>
      cases err with
      | none =>
        intro _ _
        exact ⟨f, List.mem_cons_self _ _, by simp [unmarshalLoop, hres]⟩
      | some e =>
        simp only [unmarshalLoop, hres]
        intro hok _
        obtain ⟨g, hg, hname⟩ := ih _ _ hok (Or.inl (by simp))
        exact ⟨g, List.mem_cons_of_mem _ hg, hname⟩

theorem unmarshalJSON_selection_invariant {P V E : Type} (T : RType P V E) (data : Bytes)
    (a : Any P) (hkind : T.Kind = Kind.Struct)
    (hinv : a.FieldName = "" ∨ T.hasMember a.FieldName) :
    ((UnmarshalJSON T data a).1.FieldName = "" ∨
        T.hasMember (UnmarshalJSON T data a).1.FieldName) ∧
      (T.VisibleFields ≠ [] → (UnmarshalJSON T data a).2 = none →
        T.hasMember (UnmarshalJSON T data a).1.FieldName) := by
  simp only [UnmarshalJSON, hkind, ne_eq, not_true_eq_false, if_false]
  have hsucc := unmarshalLoop_success_names_member data T.VisibleFields [] a
  have hfail := unmarshalLoop_error_keeps_name data T.VisibleFields [] a
  refine ⟨?_, fun hne hok => hsucc hok (Or.inr hne)⟩
  by_cases hok : (unmarshalLoop data T.VisibleFields [] a).2 = none
  · by_cases hne : T.VisibleFields = []
    · rw [hne]
      simpa [unmarshalLoop] using hinv
    · exact Or.inr (hsucc hok (Or.inr hne))
  · rw [hfail hok]
    exact hinv

theorem unmarshalInt_rejects_fraction (old : Int) :
    unmarshalInt (ascii "42.42") old = (old, some JSONError.Decode) := by
  have h1 : ¬ trim (ascii "42.42") = ascii "null" := by decide
  have h2 : intLit (trim (ascii "42.42")) = none := by decide
  simp [unmarshalInt, h1, h2]

theorem unmarshalString_rejects_fraction (old : Bytes) :
    unmarshalString (ascii "42.42") old = (old, some JSONError.Decode) := by
  have h1 : ¬ trim (ascii "42.42") = ascii "null" := by decide
  have h2 : strLit (trim (ascii "42.42")) = none := by decide
  simp [unmarshalString, h1, h2]

theorem intStr_rejects_fraction :
    ∀ f ∈ intStrType.VisibleFields, ∀ p, (f.Unmarshal (ascii "42.42") p).2 ≠ none := by
  intro f hf p
  have hf2 : f = fieldInt ∨ f = fieldStr := by simpa [intStrType] using hf
  rcases hf2 with rfl | rfl
  · simp [fieldInt, unmarshalInt_rejects_fraction]
  · simp [fieldStr, unmarshalString_rejects_fraction]

/-! ## The claims on failed decodes, frames and sequences of calls -/

/-- C11.  In a struct record, when no member accepts the input, `UnmarshalJSON` leaves the
selection as it was: `FieldName` after the call equals `FieldName` before the call, so an
unselected slot stays unselected. -/
theorem unmarshal_failure_keeps_selection {P V E : Type} (T : RType P V E) (data : Bytes)
    (a : Any P) (hkind : T.Kind = Kind.Struct)
    (hrej : ∀ f ∈ T.VisibleFields, ∀ p, (f.Unmarshal data p).2 ≠ none) :
    (UnmarshalJSON T data a).1.FieldName = a.FieldName ∧
      (a.FieldName = "" → (UnmarshalJSON T data a).1.FieldName = "") := by
  have h : (UnmarshalJSON T data a).1.FieldName = a.FieldName := by
    simp only [UnmarshalJSON, hkind, ne_eq, not_true_eq_false, if_false]
    rw [unmarshalLoop_failures data T.VisibleFields hrej]
  exact ⟨h, fun hempty => by rw [h, hempty]⟩

/-- C11, witness: `42.42` into an unselected `struct { Int int; Str string }`. -/
theorem unmarshal_failure_keeps_selection_witness :
    (UnmarshalJSON intStrType (ascii "42.42") (Any.mk "" (IntStr.mk 0 []))).1.FieldName = "" ∧
      ("" = "" →
        (UnmarshalJSON intStrType (ascii "42.42") (Any.mk "" (IntStr.mk 0 []))).1.FieldName
          = "") :=
  unmarshal_failure_keeps_selection intStrType (ascii "42.42") (Any.mk "" (IntStr.mk 0 []))
    rfl intStr_rejects_fraction

/-- C12.  In a struct record with members `m1..mn` all of which reject the input, the error
returned by `UnmarshalJSON` is `errors.Join` of exactly `n` causes, in declared order: the
`i`-th names `mi` and wraps the error that the decoder of `mi` returned when the loop ran
it.  For `n > 0` this is a joined error with these causes (for `n = 0` there is no cause
and `errors.Join` returns nil). -/
theorem unmarshal_error_aggregates {P V E : Type} (T : RType P V E) (data : Bytes)
    (a : Any P) (hkind : T.Kind = Kind.Struct)
    (hrej : ∀ f ∈ T.VisibleFields, ∀ p, (f.Unmarshal data p).2 ≠ none) :
    (UnmarshalJSON T data a).2 = errorsJoin (failures data T.VisibleFields a.Payload) ∧
      (T.VisibleFields ≠ [] →
        (UnmarshalJSON T data a).2 =
          some (Error.Join (failures data T.VisibleFields a.Payload))) ∧
      (failures data T.VisibleFields a.Payload).length = T.VisibleFields.length ∧
      (failures data T.VisibleFields a.Payload).map (fun e => e.Name) = T.names ∧
      ∀ (i : Nat) (f : StructField P V E), T.VisibleFields[i]? = some f →
        ((failures data T.VisibleFields a.Payload)[i]?).map (fun e => e.Err) =
          (f.Unmarshal data (attempts data (T.VisibleFields.take i) a.Payload)).2 := by
  have hnames := failures_names data T.VisibleFields hrej a.Payload
  have hlen : (failures data T.VisibleFields a.Payload).length = T.VisibleFields.length := by
    have := congrArg List.length hnames
    simpa using this
  have herr : (UnmarshalJSON T data a).2 =
      errorsJoin (failures data T.VisibleFields a.Payload) := by
    simp only [UnmarshalJSON, hkind, ne_eq, not_true_eq_false, if_false]
    rw [unmarshalLoop_failures data T.VisibleFields hrej]
    simp
  refine ⟨herr, fun hne => ?_, hlen, hnames,
    failures_getElem? data T.VisibleFields hrej a.Payload⟩
  rw [herr]
  have hne2 : failures data T.VisibleFields a.Payload ≠ [] := by
    intro hnil
    rw [hnil, List.length_nil] at hlen
    exact hne (List.length_eq_zero.mp hlen.symm)
  cases hfs : failures data T.VisibleFields a.Payload with
  | nil => exact absurd hfs hne2
  | cons e es => simp [errorsJoin]

/-- C12, witness: `42.42` into `struct { Int int; Str string }` gives the two causes, for
`Int` and for `Str`, in this order. -/
theorem unmarshal_error_aggregates_witness :
    failures (ascii "42.42") intStrType.VisibleFields (IntStr.mk 0 []) =
        [FieldError.mk "Int" JSONError.Decode, FieldError.mk "Str" JSONError.Decode] ∧
      (UnmarshalJSON intStrType (ascii "42.42") (Any.mk "" (IntStr.mk 0 []))).2 =
        some (Error.Join (failures (ascii "42.42") intStrType.VisibleFields (IntStr.mk 0 []))) :=
  ⟨by decide,
    (unmarshal_error_aggregates intStrType (ascii "42.42") (Any.mk "" (IntStr.mk 0 []))
      rfl intStr_rejects_fraction).2.1 (by simp [intStrType])⟩

/-- C13.  For a type `T` that is not a struct and every input, `UnmarshalJSON` returns the
error `must be a struct` and leaves the slot as it was: `FieldName` and `Payload` after the
call equal their values before the call, whatever the decoders of the type would do. -/
theorem unmarshal_non_struct {P V E : Type} (T : RType P V E) (data : Bytes) (a : Any P)
    (hkind : T.Kind ≠ Kind.Struct) :
    UnmarshalJSON T data a = (a, some (Error.New "must be a struct")) ∧
      (UnmarshalJSON T data a).1.FieldName = a.FieldName ∧
      (UnmarshalJSON T data a).1.Payload = a.Payload := by
  have h : UnmarshalJSON T data a = (a, some (Error.New "must be a struct")) := by
    simp [UnmarshalJSON, hkind]
  rw [h]
  exact ⟨rfl, rfl, rfl⟩

/-- C13, witness: the test `decode/non struct`, the string `towel` into `Any[int]`. -/
theorem unmarshal_non_struct_witness :
    UnmarshalJSON nonStructType (quote (ascii "towel")) (Any.mk "" 0) =
        (Any.mk "" 0, some (Error.New "must be a struct")) ∧
      (UnmarshalJSON nonStructType (quote (ascii "towel")) (Any.mk "" 0)).1.FieldName = "" ∧
      (UnmarshalJSON nonStructType (quote (ascii "towel")) (Any.mk "" 0)).1.Payload = 0 :=
  unmarshal_non_struct nonStructType (quote (ascii "towel")) (Any.mk "" 0) (by decide)

/-! ## Numbers with a fractional part -/

theorem isDigit_not_space (b : UInt8) (h : isDigit b = true) : isSpace b = false := by
  cases hs : isSpace b with
  | false => rfl
  | true =>
    exfalso
    simp only [isSpace, Bool.or_eq_true, beq_iff_eq] at hs
    rcases hs with ((hs | hs) | hs) | hs <;> subst hs <;> revert h <;> decide

theorem dropWhile_of_all_false {α : Type} (p : α → Bool) (l : List α)
    (h : ∀ b ∈ l, p b = false) : l.dropWhile p = l := by
  cases l with
  | nil => rfl
  | cons x xs => simp [List.dropWhile, h x (List.mem_cons_self _ _)]

theorem trim_of_no_space (data : Bytes) (h : ∀ b ∈ data, isSpace b = false) :
    trim data = data := by
  unfold trim
  rw [dropWhile_of_all_false isSpace data h,
    dropWhile_of_all_false isSpace data.reverse
      (fun b hb => h b (List.mem_reverse.mp hb)),
    List.reverse_reverse]

theorem natLit_some_digits (l : Bytes) (h : (natLit l).isSome = true) :
    ∀ b ∈ l, isDigit b = true := by
  unfold natLit at h
  by_cases hc : (l.isEmpty || !l.all isDigit) = true
  · simp [hc] at h
  · simp only [Bool.or_eq_true, Bool.not_eq_true', not_or, Bool.not_eq_false] at hc
    exact List.all_eq_true.mp hc.2

theorem natLit_of_dot (l : Bytes) (h : (0x2e : UInt8) ∈ l) : natLit l = none := by
  cases hn : natLit l with
  | none => rfl
  | some n =>
    exfalso
    have hd := natLit_some_digits l (by rw [hn]; rfl) 0x2e h
    revert hd
    decide

theorem intLit_some_shape (whole : Bytes) (h : (intLit whole).isSome = true) :
    ∃ b w, whole = b :: w ∧ (b = 0x2d ∨ isDigit b = true) ∧ ∀ x ∈ w, isDigit x = true := by
  cases whole with
  | nil => simp [intLit] at h
  | cons b w =>
    refine ⟨b, w, rfl, ?_⟩
    by_cases hb : b = 0x2d
    · subst hb
      cases hn : natLit w with
      | none => simp [intLit, hn] at h
      | some n => exact ⟨Or.inl rfl, natLit_some_digits w (by rw [hn]; rfl)⟩
    · have hb2 : (b == 0x2d) = false := by simpa using hb
      cases hn : natLit (b :: w) with
      | none => simp [intLit, hb2, hn] at h
      | some n =>
        have hd := natLit_some_digits (b :: w) (by rw [hn]; rfl)
        exact ⟨Or.inr (hd b (List.mem_cons_self _ _)),
          fun x hx => hd x (List.mem_cons_of_mem _ hx)⟩

theorem isOptExponent_no_space (e : Bytes) (h : isOptExponent e = true) :
    ∀ b ∈ e, isSpace b = false := by
  cases e with
  | nil => intro b hb; simp at hb
  | cons c rest =>
    cases rest with
    | nil => simp [isOptExponent] at h
    | cons s ds =>
      simp only [isOptExponent, Bool.and_eq_true, Bool.or_eq_true, beq_iff_eq] at h
      obtain ⟨hc, hrest⟩ := h
      have hcs : isSpace c = false := by
        rcases hc with hc | hc <;> subst hc <;> decide
      intro b hb
      rcases List.mem_cons.mp hb with hb | hb
      · rw [hb]; exact hcs
      · by_cases hsign : s = 0x2b ∨ s = 0x2d
        · simp only [hsign, if_true, Bool.and_eq_true] at hrest
          rcases List.mem_cons.mp hb with hb | hb
          · rw [hb]
            rcases hsign with hs | hs <;> subst hs <;> decide
          · exact isDigit_not_space b (List.all_eq_true.mp hrest.2 b hb)
        · simp only [hsign, if_false] at hrest
          exact isDigit_not_space b (List.all_eq_true.mp hrest b hb)

theorem fractional_shape (data : Bytes) (h : FractionalNumber data) :
    ∃ b tail, data = b :: tail ∧ (b = 0x2d ∨ isDigit b = true) ∧ (0x2e : UInt8) ∈ tail ∧
      ∀ x ∈ data, isSpace x = false := by
  obtain ⟨whole, frac, exp, hdata, hwhole, _, hfrac, hexp⟩ := h
  obtain ⟨b, w, hw, hb, hwd⟩ := intLit_some_shape whole hwhole
  subst hw
  refine ⟨b, w ++ 0x2e :: (frac ++ exp), by rw [hdata]; rfl, hb, by simp, ?_⟩
  have hbs : isSpace b = false := by
    rcases hb with hb | hb
    · subst hb; decide
    · exact isDigit_not_space b hb
  intro x hx
  rw [hdata] at hx
  simp only [List.cons_append, List.mem_cons, List.mem_append] at hx
  rcases hx with hx | hx | hx | hx | hx
  · rw [hx]; exact hbs
  · exact isDigit_not_space x (hwd x hx)
  · rw [hx]; decide
  · exact isDigit_not_space x (List.all_eq_true.mp hfrac x hx)
  · exact isOptExponent_no_space exp hexp x hx

theorem unmarshalInt_rejects_fractional (data : Bytes) (old : Int)
    (h : FractionalNumber data) : unmarshalInt data old = (old, some JSONError.Decode) := by
  obtain ⟨b, tail, hdata, hb, hdot, hns⟩ := fractional_shape data h
  have htrim := trim_of_no_space data hns
  have hnull : ¬ data = ascii "null" := by
    have hlit : ascii "null" = [0x6e, 0x75, 0x6c, 0x6c] := by decide
    rw [hlit, hdata]
    intro heq
    have hb2 : b = 0x6e := (List.cons.inj heq).1
    subst hb2
    rcases hb with hb | hb <;> revert hb <;> decide
  have hint : intLit data = none := by
    rw [hdata]
    by_cases hb2 : b = 0x2d
    · subst hb2
      simp [intLit, natLit_of_dot tail hdot]
    · have hb3 : (b == 0x2d) = false := by simpa using hb2
      simp [intLit, hb3, natLit_of_dot (b :: tail) (List.mem_cons_of_mem _ hdot)]
  simp [unmarshalInt, htrim, hnull, hint]

theorem unmarshalString_rejects_fractional (data : Bytes) (old : Bytes)
    (h : FractionalNumber data) :
    unmarshalString data old = (old, some JSONError.Decode) := by
  obtain ⟨b, tail, hdata, hb, _, hns⟩ := fractional_shape data h
  have htrim := trim_of_no_space data hns
  have hnull : ¬ data = ascii "null" := by
    have hlit : ascii "null" = [0x6e, 0x75, 0x6c, 0x6c] := by decide
    rw [hlit, hdata]
    intro heq
    have hb2 : b = 0x6e := (List.cons.inj heq).1
    subst hb2
    rcases hb with hb | hb <;> revert hb <;> decide
  have hquote : (b == 0x22) = false := by
    rcases hb with hb | hb
    · subst hb; decide
    · cases hq : (b == 0x22) with
      | false => rfl
      | true =>
        have hb2 : b = 0x22 := by simpa using hq
        subst hb2
        revert hb
        decide
  have hstr : strLit data = none := by
    rw [hdata]
    simp [strLit, hquote]
  simp [unmarshalString, htrim, hnull, hstr]

/-- C14.  For the record `struct { Int int; Str string }` and every JSON number with a
fractional part (`42.42`, and also `42.0`), `UnmarshalJSON` into any slot returns an error
with one cause for `Int` and one for `Str` and leaves the slot as it was: no member is
selected, `Int` is not set to a truncated value and `Str` does not accept the number. -/
theorem unmarshal_fraction_rejected (data : Bytes) (a : Any IntStr)
    (hfrac : FractionalNumber data) :
    UnmarshalJSON intStrType data a =
        (a, some (Error.Join
          [FieldError.mk "Int" JSONError.Decode, FieldError.mk "Str" JSONError.Decode])) ∧
      fieldInt.Unmarshal data a.Payload = (a.Payload, some JSONError.Decode) ∧
      fieldStr.Unmarshal data a.Payload = (a.Payload, some JSONError.Decode) := by
  have hInt : fieldInt.Unmarshal data a.Payload = (a.Payload, some JSONError.Decode) := by
    simp [fieldInt, unmarshalInt_rejects_fractional data _ hfrac]
  have hStr : fieldStr.Unmarshal data a.Payload = (a.Payload, some JSONError.Decode) := by
    simp [fieldStr, unmarshalString_rejects_fractional data _ hfrac]
  refine ⟨?_, hInt, hStr⟩
  simp only [UnmarshalJSON, intStrType, unmarshalLoop, hInt, hStr, errorsJoin]
  exact Prod.ext rfl rfl

/-- C14, witness: the input `42.42` of the test `decode/float`, and the input `42.0`, into
a slot selected on `Str` with `Int = 7` and `Str = towel`. -/
theorem unmarshal_fraction_rejected_witness :
    UnmarshalJSON intStrType (ascii "42.42") (Any.mk "Str" (IntStr.mk 7 (ascii "towel"))) =
        (Any.mk "Str" (IntStr.mk 7 (ascii "towel")), some (Error.Join
          [FieldError.mk "Int" JSONError.Decode, FieldError.mk "Str" JSONError.Decode])) ∧
      UnmarshalJSON intStrType (ascii "42.0") (Any.mk "Str" (IntStr.mk 7 (ascii "towel"))) =
        (Any.mk "Str" (IntStr.mk 7 (ascii "towel")), some (Error.Join
          [FieldError.mk "Int" JSONError.Decode, FieldError.mk "Str" JSONError.Decode])) :=
  ⟨(unmarshal_fraction_rejected (ascii "42.42") (Any.mk "Str" (IntStr.mk 7 (ascii "towel")))
      ⟨ascii "42", ascii "42", [], by decide, by decide, by decide, by decide, by decide⟩).1,
    (unmarshal_fraction_rejected (ascii "42.0") (Any.mk "Str" (IntStr.mk 7 (ascii "towel")))
      ⟨ascii "42", ascii "0", [], by decide, by decide, by decide, by decide, by decide⟩).1⟩

/-! ## MarshalJSON as a call on its receiver -/

theorem marshalNamedExec_slot {P V E : Type} (c : Codec V E)
    (fields : List (StructField P V E)) (a : Any P) :
    (marshalNamedExec c fields a).1 = a := by
  induction fields with
  | nil => rfl
  | cons f fs ih =>
    simp only [marshalNamedExec]
    split
    · exact ih
    · split
      · rfl
      · split
        · exact ih
        · rfl

theorem marshalSniffExec_slot {P V E : Type} (c : Codec V E)
    (fields : List (StructField P V E)) (a : Any P) :
    (marshalSniffExec c fields a).1 = a := by
  induction fields with
  | nil => rfl
  | cons f fs ih =>
    simp only [marshalSniffExec]
    split
    · exact ih
    · split
      · rfl
      · split
        · exact ih
        · rfl

theorem marshalNamedExec_outcome {P V E : Type} (c : Codec V E)
    (fields : List (StructField P V E)) (a : Any P) :
    (marshalNamedExec c fields a).2 = Outcome.panics ∨
      (marshalNamedExec c fields a).2 =
        Outcome.returns (marshalNamed c a.FieldName a.Payload fields) := by
  induction fields with
  | nil => right; rfl
  | cons f fs ih =>
    simp only [marshalNamedExec, marshalNamed]
    split
    · exact ih
    · split
      · left; rfl
      · split
        · exact ih
        · right; rfl

theorem marshalSniffExec_outcome {P V E : Type} (c : Codec V E)
    (fields : List (StructField P V E)) (a : Any P) :
    (marshalSniffExec c fields a).2 = Outcome.panics ∨
      (marshalSniffExec c fields a).2 =
        Outcome.returns (marshalSniff c a.Payload fields) := by
  induction fields with
  | nil => right; rfl
  | cons f fs ih =>
    simp only [marshalSniffExec, marshalSniff]
    split
    · exact ih
    · split
      · left; rfl
      · split
        · exact ih
        · right; rfl

theorem marshalNamedExec_exported {P V E : Type} (c : Codec V E)
    (fields : List (StructField P V E)) (a : Any P)
    (h : ∀ f ∈ fields, interfacePanics f = false) :
    (marshalNamedExec c fields a).2 ≠ Outcome.panics := by
  induction fields with
  | nil => simp [marshalNamedExec]
  | cons f fs ih =>
    have hf := h f (List.mem_cons_self _ _)
    have ih2 := ih (fun g hg => h g (List.mem_cons_of_mem _ hg))
    simp only [marshalNamedExec, hf]
    split
    · exact ih2
    · split
      · contradiction
      · split
        · exact ih2
        · simp

theorem marshalSniffExec_exported {P V E : Type} (c : Codec V E)
    (fields : List (StructField P V E)) (a : Any P)
    (h : ∀ f ∈ fields, interfacePanics f = false) :
    (marshalSniffExec c fields a).2 ≠ Outcome.panics := by
  induction fields with
  | nil => simp [marshalSniffExec]
  | cons f fs ih =>
    have hf := h f (List.mem_cons_self _ _)
    have ih2 := ih (fun g hg => h g (List.mem_cons_of_mem _ hg))
    simp only [marshalSniffExec, hf]
    split
    · exact ih2
    · split
      · contradiction
      · split
        · exact ih2
        · simp

theorem marshalJSON_exec_slot {P V E : Type} (c : Codec V E) (T : RType P V E)
    (a : Any P) : (MarshalJSON.exec c T a).1 = a := by
  by_cases hk : T.Kind = Kind.Struct
  · by_cases hname : a.FieldName = ""
    · have hs := marshalSniffExec_slot c T.VisibleFields a
      simp only [MarshalJSON.exec, hk, hname, ne_eq, not_true_eq_false, if_false]
      rcases hloop : marshalSniffExec c T.VisibleFields a with ⟨a1, o⟩
      rw [hloop] at hs
      cases o with
      | panics => simpa using hs
      | returns r => cases r <;> simpa using hs
    · have hn := marshalNamedExec_slot c T.VisibleFields a
      simp only [MarshalJSON.exec, hk, hname, ne_eq, not_true_eq_false, if_false,
        not_false_eq_true, if_true]
      rcases hloop : marshalNamedExec c T.VisibleFields a with ⟨a1, o⟩
      rw [hloop] at hn
      cases o with
      | panics => simpa using hn
      | returns r => cases r <;> simpa using hn
  · simp [MarshalJSON.exec, hk]

theorem marshalJSON_exec_outcome {P V E : Type} (c : Codec V E) (T : RType P V E)
    (a : Any P) :
    (MarshalJSON.exec c T a).2 = Outcome.panics ∨
      (MarshalJSON.exec c T a).2 = Outcome.returns (MarshalJSON c T a) := by
  unfold MarshalJSON.exec MarshalJSON
  split
  · right; rfl
  · have hn := marshalNamedExec_outcome c T.VisibleFields a
    have hs := marshalSniffExec_outcome c T.VisibleFields a
    by_cases hname : a.FieldName = ""
    · simp only [hname, ne_eq, not_true_eq_false, if_false] at hs ⊢
      rcases hloop : marshalSniffExec c T.VisibleFields a with ⟨a1, o⟩
      rw [hloop] at hs
      cases o with
      | panics => left; rfl
      | returns r =>
        right
        rcases hs with hs | hs
        · simp at hs
        · simp only [Outcome.returns.injEq] at hs
          subst hs
          cases marshalSniff c a.Payload T.VisibleFields <;> rfl
    · simp only [hname, ne_eq, not_false_eq_true, if_true] at hn ⊢
      rcases hloop : marshalNamedExec c T.VisibleFields a with ⟨a1, o⟩
      rw [hloop] at hn
      cases o with
      | panics => left; rfl
      | returns r =>
        right
        rcases hn with hn | hn
        · simp at hn
        · simp only [Outcome.returns.injEq] at hn
          subst hn
          cases marshalNamed c a.FieldName a.Payload T.VisibleFields <;> rfl

theorem marshalJSON_exec_no_panic {P V E : Type} (c : Codec V E) (T : RType P V E)
    (a : Any P) (hexp : ∀ f ∈ T.VisibleFields, interfacePanics f = false) :
    (MarshalJSON.exec c T a).2 ≠ Outcome.panics := by
  by_cases hk : T.Kind = Kind.Struct
  · by_cases hname : a.FieldName = ""
    · have hs := marshalSniffExec_exported c T.VisibleFields a hexp
      simp only [MarshalJSON.exec, hk, hname, ne_eq, not_true_eq_false, if_false]
      rcases hloop : marshalSniffExec c T.VisibleFields a with ⟨a1, o⟩
      rw [hloop] at hs
      cases o with
      | panics => exact absurd rfl hs
      | returns r => cases r <;> simp
    · have hn := marshalNamedExec_exported c T.VisibleFields a hexp
      simp only [MarshalJSON.exec, hk, hname, ne_eq, not_true_eq_false, if_false,
        not_false_eq_true, if_true]
      rcases hloop : marshalNamedExec c T.VisibleFields a with ⟨a1, o⟩
      rw [hloop] at hn
      cases o with
      | panics => exact absurd rfl hn
      | returns r => cases r <;> simp
  · simp [MarshalJSON.exec, hk]

theorem marshalJSON_exec_exported {P V E : Type} (c : Codec V E) (T : RType P V E)
    (a : Any P) (hexp : ∀ f ∈ T.VisibleFields, interfacePanics f = false) :
    (MarshalJSON.exec c T a).2 = Outcome.returns (MarshalJSON c T a) := by
  rcases marshalJSON_exec_outcome c T a with h | h
  · exact absurd h (marshalJSON_exec_no_panic c T a hexp)
  · exact h

/-- C15.  `MarshalJSON` leaves the slot as it was: carried through the statements of the
body, the receiver after the call has the `FieldName` and the `Payload` it had before,
whether the call returns bytes, returns the error or panics; and whenever the call
returns, it returns the values of `MarshalJSON`.  In particular an unselected slot of
`struct { Int int; Str string }` with `Int = 42` is encoded as `42` by the scan and is
still unselected after the call. -/
theorem marshal_keeps_slot {P V E : Type} (c : Codec V E) (T : RType P V E) (a : Any P) :
    (MarshalJSON.exec c T a).1 = a ∧
      (MarshalJSON.exec c T a).1.FieldName = a.FieldName ∧
      (MarshalJSON.exec c T a).1.Payload = a.Payload ∧
      (∀ r, (MarshalJSON.exec c T a).2 = Outcome.returns r → r = MarshalJSON c T a) ∧
      MarshalJSON.exec testCodec intStrType (Any.mk "" (IntStr.mk 42 [])) =
        (Any.mk "" (IntStr.mk 42 []), Outcome.returns (ascii "42", none)) ∧
      MarshalJSON.exec testCodec nonStructType (Any.mk "" 0) =
        (Any.mk "" 0, Outcome.returns ([], some (Error.New "must be a struct"))) := by
  have hslot := marshalJSON_exec_slot c T a
  refine ⟨hslot, by rw [hslot], by rw [hslot], fun r hr => ?_, by decide, by decide⟩
  rcases marshalJSON_exec_outcome c T a with h | h
  · rw [h] at hr; simp at hr
  · rw [h] at hr
    simp only [Outcome.returns.injEq] at hr
    exact hr.symm

/-- C9, the failing input.  The type `struct { x int }` is a struct whose field is not
exported.  With `x = 1` and `FieldName` empty the scan reaches `Interface()` on `x`, and
with `FieldName = "x"` the named loop does: the call panics and returns neither bytes nor
an error.  With `x = 0` and `FieldName` empty the field is skipped and the call returns
`null`. -/
theorem marshal_unexported_field_panics :
    unexportedType.Kind = Kind.Struct ∧
      MarshalJSON.exec testCodec unexportedType (Any.mk "" (1 : Int)) =
        (Any.mk "" (1 : Int), Outcome.panics) ∧
      MarshalJSON.exec testCodec unexportedType (Any.mk "x" (0 : Int)) =
        (Any.mk "x" (0 : Int), Outcome.panics) ∧
      MarshalJSON.exec testCodec unexportedType (Any.mk "" (0 : Int)) =
        (Any.mk "" (0 : Int), Outcome.returns (nullLiteral, none)) :=
  ⟨rfl, by decide, by decide, by decide⟩

theorem marshalJSON_exec_exported_error_iff {P V E : Type} (c : Codec V E)
    (T : RType P V E) (a : Any P)
    (hexp : ∀ f ∈ T.VisibleFields, interfacePanics f = false)
    (hout : ∀ v b, c.Marshal v = Except.ok b → b ≠ []) :
    ∃ bytes err, MarshalJSON.exec c T a = (a, Outcome.returns (bytes, err)) ∧
      (err ≠ none ↔ T.Kind ≠ Kind.Struct) ∧
      (T.Kind ≠ Kind.Struct → bytes = [] ∧ err = some (Error.New "must be a struct")) ∧
      (T.Kind = Kind.Struct → err = none ∧ bytes ≠ []) := by
  have h := marshal_error_iff_not_struct c T a hout
  refine ⟨(MarshalJSON c T a).1, (MarshalJSON c T a).2, ?_, h.1, fun hk => ?_, h.2.2⟩
  · exact Prod.ext (marshalJSON_exec_slot c T a) (marshalJSON_exec_exported c T a hexp)
  · rw [h.2.1 hk]
    exact ⟨rfl, rfl⟩

/-- C16, the failing input.  The record `struct {}` has no member and the slot is
unselected, so the selection invariant holds before the call; `UnmarshalJSON` of `42`
returns the nil error and `FieldName` stays empty: after this successful call it names
no member. -/
theorem unmarshal_empty_struct_selects_nothing :
    ((Any.mk "" () : Any Unit).FieldName = "" ∨
        emptyStructType.hasMember (Any.mk "" () : Any Unit).FieldName) ∧
      (UnmarshalJSON emptyStructType (ascii "42") (Any.mk "" ())).2 = none ∧
      (UnmarshalJSON emptyStructType (ascii "42") (Any.mk "" ())).1.FieldName = "" ∧
      ¬ emptyStructType.hasMember
          (UnmarshalJSON emptyStructType (ascii "42") (Any.mk "" ())).1.FieldName := by
  refine ⟨Or.inl rfl, by decide, by decide, ?_⟩
  rintro ⟨f, hf, _⟩
  simp [emptyStructType] at hf

/-- C17, as amended.  In a struct record whose fields are `before ++ M :: after`, when every
member of `before` rejects the input and `M` accepts it, no decode is attempted on a
member of `after`: the result is the same for every other list of later members.  Hence
every member of `after` whose value is not changed by the decoders of `before` and of `M`
holds after the call exactly the value it held before the call. -/
theorem unmarshal_stops_at_first_success {P V E : Type} (T : RType P V E) (data : Bytes)
    (a : Any P) (before after : List (StructField P V E)) (M : StructField P V E)
    (hkind : T.Kind = Kind.Struct) (hfields : T.VisibleFields = before ++ M :: after)
    (hrej : ∀ f ∈ before, ∀ p, (f.Unmarshal data p).2 ≠ none)
    (hacc : (M.Unmarshal data (attempts data before a.Payload)).2 = none) :
    (∀ (T2 : RType P V E) (after2 : List (StructField P V E)),
        T2.Kind = Kind.Struct → T2.VisibleFields = before ++ M :: after2 →
        UnmarshalJSON T2 data a = UnmarshalJSON T data a) ∧
      ∀ g ∈ after,
        (∀ f ∈ before ++ [M], ∀ p, g.FieldByIndex (f.Unmarshal data p).1 = g.FieldByIndex p) →
        g.FieldByIndex (UnmarshalJSON T data a).1.Payload = g.FieldByIndex a.Payload := by
  have hres := unmarshalJSON_first T data a before after M hkind hfields hrej hacc
  refine ⟨fun T2 after2 hkind2 hfields2 => ?_, fun g _ hframe => ?_⟩
  · rw [hres, unmarshalJSON_first T2 data a before after2 M hkind2 hfields2 hrej hacc]
  · rw [hres]
    have hM := hframe M (by simp) (attempts data before a.Payload)
    have hbefore := attempts_frame data g before
      (fun f hf p => hframe f (List.mem_append_left _ hf) p) a.Payload
    exact hM.trans hbefore

/-- C17 as amended, witness: the test `decode/int`, with `Str` holding `towel` before the
call and after it. -/
theorem unmarshal_stops_at_first_success_witness :
    fieldStr.FieldByIndex
        (UnmarshalJSON intStrType (ascii "42") (Any.mk "" (IntStr.mk 0 (ascii "towel")))).1.Payload
      = fieldStr.FieldByIndex (IntStr.mk 0 (ascii "towel")) :=
  (unmarshal_stops_at_first_success intStrType (ascii "42")
    (Any.mk "" (IntStr.mk 0 (ascii "towel"))) [] [fieldStr] fieldInt rfl rfl
    (fun f hf => by simp at hf) (by decide)).2 fieldStr (by simp)
    (fun f hf p => by
      have hf2 : f = fieldInt := by simpa using hf
      subst hf2
      rfl)

/-- C17, counterexample.  In `struct { Inner; X int }` the visible fields are `Inner`, `Y`,
`X`.  The input `{"Y":5}` is accepted by `Inner`, which is selected, and the member `Y`,
declared after `Inner`, held `0` before the call and holds `5` after it. -/
theorem unmarshal_embedded_changes_later_member :
    embeddedType.VisibleFields = [] ++ fieldInner :: [fieldY, fieldX] ∧
      UnmarshalJSON embeddedType objectY5 (Any.mk "" (Embedded.mk 0 0)) =
        (Any.mk "Inner" (Embedded.mk 5 0), none) ∧
      fieldY.FieldByIndex (Embedded.mk 0 0) = EmbValue.int 0 ∧
      fieldY.FieldByIndex
          (UnmarshalJSON embeddedType objectY5 (Any.mk "" (Embedded.mk 0 0))).1.Payload =
        EmbValue.int 5 ∧
      fieldY.FieldByIndex
          (UnmarshalJSON embeddedType objectY5 (Any.mk "" (Embedded.mk 0 0))).1.Payload ≠
        fieldY.FieldByIndex (Embedded.mk 0 0) :=
  ⟨rfl, by decide, by decide, by decide, by decide⟩

/-- C18 (encode after decode).  In a struct record with distinct member names whose fields
are `before ++ M :: after`, when every member of `before` rejects the input and `M` accepts
it, `UnmarshalJSON` selects `M`, and `MarshalJSON` on the resulting slot returns no error
and the serialization of the value `M` holds after the decode, or `null` when that
serialization fails, whatever the other members hold. -/
theorem marshal_after_unmarshal {P V E : Type} (c : Codec V E) (T : RType P V E)
    (data : Bytes) (a : Any P) (before after : List (StructField P V E))
    (M : StructField P V E)
    (hkind : T.Kind = Kind.Struct) (hfields : T.VisibleFields = before ++ M :: after)
    (hnodup : T.names.Nodup) (hname : M.Name ≠ "")
    (hrej : ∀ f ∈ before, ∀ p, (f.Unmarshal data p).2 ≠ none)
    (hacc : (M.Unmarshal data (attempts data before a.Payload)).2 = none) :
    (UnmarshalJSON T data a).2 = none ∧
      (UnmarshalJSON T data a).1.FieldName = M.Name ∧
      MarshalJSON c T (UnmarshalJSON T data a).1 =
        (match c.Marshal (M.FieldByIndex (UnmarshalJSON T data a).1.Payload) with
          | Except.ok b => (b, none)
          | Except.error _ => (nullLiteral, none)) := by
  have hres := unmarshalJSON_first T data a before after M hkind hfields hrej hacc
  have hmem : M ∈ T.VisibleFields := by rw [hfields]; simp
  refine ⟨by rw [hres], by rw [hres], ?_⟩
  exact marshalJSON_named c T (UnmarshalJSON T data a).1 M hkind hmem hnodup hname
    (by rw [hres])

/-- C18, witness: `null` into `struct { Int int; Str string }` with `Int = 0` and
`Str = towel` selects `Int`, and the following `MarshalJSON` returns `0`, not `towel`. -/
theorem marshal_after_unmarshal_witness :
    MarshalJSON testCodec intStrType (Any.mk "" (IntStr.mk 0 (ascii "towel"))) =
        (quote (ascii "towel"), none) ∧
      (UnmarshalJSON intStrType (ascii "null")
        (Any.mk "" (IntStr.mk 0 (ascii "towel")))).1.FieldName = "Int" ∧
      MarshalJSON testCodec intStrType
          (UnmarshalJSON intStrType (ascii "null")
            (Any.mk "" (IntStr.mk 0 (ascii "towel")))).1 = (ascii "0", none) :=
  ⟨by decide,
    (marshal_after_unmarshal testCodec intStrType (ascii "null")
      (Any.mk "" (IntStr.mk 0 (ascii "towel"))) [] [fieldStr] fieldInt rfl rfl
      (by decide) (by decide) (fun f hf => by simp at hf) (by decide)).2.1,
    by decide⟩

/-- C19 (null selects the first member).  In a struct record whose first member is `M`,
when the decoder of `M` accepts the literal `null`, `UnmarshalJSON` of `null` returns no
error and sets `FieldName` to the name of `M`.  For `struct { Int int; Str string }` the
output of `MarshalJSON` on the unselected all-zero slot is `null`, and decoding it yields
the slot with `FieldName = "Int"` and the values untouched. -/
theorem unmarshal_null_selects_first {P V E : Type} (T : RType P V E) (a : Any P)
    (M : StructField P V E) (rest : List (StructField P V E))
    (hkind : T.Kind = Kind.Struct) (hfields : T.VisibleFields = M :: rest)
    (hnull : (M.Unmarshal nullLiteral a.Payload).2 = none) :
    UnmarshalJSON T nullLiteral a =
        (Any.mk M.Name (M.Unmarshal nullLiteral a.Payload).1, none) ∧
      (UnmarshalJSON T nullLiteral a).2 = none ∧
      (UnmarshalJSON T nullLiteral a).1.FieldName = M.Name ∧
      MarshalJSON testCodec intStrType (Any.mk "" (IntStr.mk 0 [])) = (nullLiteral, none) ∧
      UnmarshalJSON intStrType
          (MarshalJSON testCodec intStrType (Any.mk "" (IntStr.mk 0 []))).1
          (Any.mk "" (IntStr.mk 0 [])) = (Any.mk "Int" (IntStr.mk 0 []), none) := by
  have hres : UnmarshalJSON T nullLiteral a =
      (Any.mk M.Name (M.Unmarshal nullLiteral a.Payload).1, none) :=
    unmarshalJSON_first T nullLiteral a [] rest M hkind (by simpa using hfields)
      (fun f hf => by simp at hf) hnull
  refine ⟨hres, by rw [hres], by rw [hres], by decide, by decide⟩

/-- C19, witness: `null` into `struct { Int int; Str string }` selected on `Str` with
`Int = 7` and `Str = towel` selects `Int` and leaves both values as they were. -/
theorem unmarshal_null_selects_first_witness :
    (UnmarshalJSON intStrType nullLiteral (Any.mk "Str" (IntStr.mk 7 (ascii "towel")))).1 =
        Any.mk "Int" (IntStr.mk 7 (ascii "towel")) ∧
      (UnmarshalJSON intStrType nullLiteral
        (Any.mk "Str" (IntStr.mk 7 (ascii "towel")))).1.FieldName = fieldInt.Name :=
  ⟨by decide,
    (unmarshal_null_selects_first intStrType (Any.mk "Str" (IntStr.mk 7 (ascii "towel")))
      fieldInt [fieldStr] rfl rfl (by decide)).2.2.1⟩

end Genson
